import Mathlib

/-!
# Formal model of the pysparkplug core

A shallow embedding of the pysparkplug library: the Sparkplug B datatype
registry and metric codec, the topic grammar, and the edge-node session
state machine, together with proofs of the specified properties.

The Python implementation modules (`_datatype.py`, `_payload.py`,
`_topic.py`, `_edge_node.py`, `_client.py`) are not part of the material
available here; every definition below is therefore modelled from the
specification's own description of those modules, as noted on each
definition.
-/

namespace Pysparkplug

/-- Modelled from the spec: the error taxonomy of §7 (the implementation
module defining pysparkplug's exception classes is missing). -/
inductive SPError where
  | invalidTopic
  | invalidMetric
  | notInBirthSet
  | notImplementedDatatype
  | codecError
  | invalidState
  | mqttError
  deriving DecidableEq, Repr

/-- Modelled from the spec: the `DataType` enumeration of §3 (C1), from the
missing `_datatype.py`.  Numeric tags follow the Sparkplug B specification,
which the spec says the implementation matches. -/
inductive DataType where
  | unknown
  | int8
  | int16
  | int32
  | int64
  | uint8
  | uint16
  | uint32
  | uint64
  | float
  | double
  | boolean
  | string
  | datetime
  | text
  | uuid
  | dataset
  | bytes
  | file
  | template
  | propertyset
  | propertysetlist
  | int8Array
  | int16Array
  | int32Array
  | int64Array
  | uint8Array
  | uint16Array
  | uint32Array
  | uint64Array
  | floatArray
  | doubleArray
  | booleanArray
  | stringArray
  | datetimeArray
  deriving DecidableEq, Repr

namespace DataType
/-- Modelled from the spec: "a numeric tag matching the Sparkplug spec". -/
def tag : DataType → Nat
  | .unknown => 0
  | .int8 => 1
  | .int16 => 2
  | .int32 => 3
  | .int64 => 4
  | .uint8 => 5
  | .uint16 => 6
  | .uint32 => 7
  | .uint64 => 8
  | .float => 9
  | .double => 10
  | .boolean => 11
  | .string => 12
  | .datetime => 13
  | .text => 14
  | .uuid => 15
  | .dataset => 16
  | .bytes => 17
  | .file => 18
  | .template => 19
  | .propertyset => 20
  | .propertysetlist => 21
  | .int8Array => 22
  | .int16Array => 23
  | .int32Array => 24
  | .int64Array => 25
  | .uint8Array => 26
  | .uint16Array => 27
  | .uint32Array => 28
  | .uint64Array => 29
  | .floatArray => 30
  | .doubleArray => 31
  | .booleanArray => 32
  | .stringArray => 33
  | .datetimeArray => 34
/-- Modelled from the spec: inverse lookup of a wire tag in the known
enumeration; a tag outside it has no `DataType`. -/
def ofTag (n : Nat) : Option DataType :=
  match n with
  | 0 => some .unknown
  | 1 => some .int8
  | 2 => some .int16
  | 3 => some .int32
  | 4 => some .int64
  | 5 => some .uint8
  | 6 => some .uint16
  | 7 => some .uint32
  | 8 => some .uint64
  | 9 => some .float
  | 10 => some .double
  | 11 => some .boolean
  | 12 => some .string
  | 13 => some .datetime
  | 14 => some .text
  | 15 => some .uuid
  | 16 => some .dataset
  | 17 => some .bytes
  | 18 => some .file
  | 19 => some .template
  | 20 => some .propertyset
  | 21 => some .propertysetlist
  | 22 => some .int8Array
  | 23 => some .int16Array
  | 24 => some .int32Array
  | 25 => some .int64Array
  | 26 => some .uint8Array
  | 27 => some .uint16Array
  | 28 => some .uint32Array
  | 29 => some .uint64Array
  | 30 => some .floatArray
  | 31 => some .doubleArray
  | 32 => some .booleanArray
  | 33 => some .stringArray
  | 34 => some .datetimeArray
  | _ => none
/-- Modelled from the spec: "A small set of types are unsupported":
Template, DataSet, Properties, and the Unknown tag; everything else in the
enumeration is supported (§1 non-goals, §3 C1, changelog 0.5.0). -/
def supported : DataType → Bool
  | .unknown => false
  | .dataset => false
  | .template => false
  | .propertyset => false
  | .propertysetlist => false
  | _ => true
end DataType

/-- Propositional equality of `Except` results is decidable when both
component types have decidable equality. -/
instance {e a : Type} [DecidableEq e] [DecidableEq a] : DecidableEq (Except e a) := fun x y =>
  match x, y with
  | .error u, .error v =>
    decidable_of_iff (u = v)
      (Iff.intro (fun h => by rw [h]) (fun h => by injection h))
  | .ok u, .ok v =>
    decidable_of_iff (u = v)
      (Iff.intro (fun h => by rw [h]) (fun h => by injection h))
  | .error _, .ok _ => isFalse (fun h => Except.noConfusion h)
  | .ok _, .error _ => isFalse (fun h => Except.noConfusion h)

/-- Modelled from the spec: a Python `datetime` value, reduced to the pair
the codec inspects — wall-clock milliseconds and an optional UTC-offset in
milliseconds (`none` for a naive datetime). -/
structure PyDateTime where
  ms : Int
  tzOffsetMs : Option Int
  deriving DecidableEq, Repr

/-- Modelled from the spec (§4.1 DateTime handling): the UTC milliseconds a
datetime denotes.  A naive value (no timezone) is interpreted in the local
timezone, whose UTC offset in milliseconds is the parameter `localOff`;
an aware value is converted from its own zone. -/
def utcMs (localOff : Int) (dt : PyDateTime) : Int :=
  match dt.tzOffsetMs with
  | none => dt.ms - localOff
  | some z => dt.ms - z

/-- Modelled from the spec (§3 MetaData): optional per-metric descriptor,
carried through the codec verbatim. -/
structure MetaData where
  content_type : Option String
  size : Option Int
  file_name : Option String
  file_type : Option String
  md5 : Option String
  description : Option String
  is_multi_part : Bool
  seq_number : Option Int
  deriving DecidableEq, Repr

/-- Modelled from the spec (§3 MetricValue, §9 design notes): the runtime
value of a metric as an explicit tagged union.  FLOAT and DOUBLE values are
carried as their IEEE-754 bit patterns (32 and 64 bits respectively), which
is the representation the wire slots hold. -/
inductive MetricValue where
  | int (i : Int)
  | flt (bits : Nat)
  | dbl (bits : Nat)
  | boolean (b : Bool)
  | str (s : String)
  | bytes (bs : List Nat)
  | datetime (dt : PyDateTime)
  | intArray (xs : List Int)
  | fltArray (xs : List Nat)
  | dblArray (xs : List Nat)
  | booleanArray (xs : List Bool)
  | strArray (xs : List String)
  | datetimeArray (xs : List PyDateTime)
  deriving DecidableEq, Repr

/-- Modelled from the spec (§3 Metric): name, timestamp (ms since epoch),
datatype, optional value (`none` meaning null), flags, optional metadata. -/
structure Metric where
  name : Option String
  timestamp : Int
  datatype : DataType
  value : Option MetricValue
  is_historical : Bool
  is_transient : Bool
  metadata : Option MetaData
  deriving DecidableEq, Repr

/-- Modelled from the spec (§4.1): "the codec reinterprets the
two's-complement bit pattern of a signed N-bit value as an unsigned N-bit
value before packing". -/
def tcEncode (w : Nat) (i : Int) : Nat :=
  (i % ((2 : Int) ^ w)).toNat

/-- Modelled from the spec (§4.1): inverse reinterpretation — an unsigned
N-bit pattern read back as a signed N-bit value. -/
def tcDecode (w : Nat) (n : Nat) : Int :=
  if n < 2 ^ (w - 1) then (n : Int) else (n : Int) - (2 : Int) ^ w

/-- Modelled from the spec (§4.1): little-endian serialization of an
unsigned number into `k` bytes. -/
def natToLE (k : Nat) (n : Nat) : List Nat :=
  match k with
  | 0 => []
  | k + 1 => n % 256 :: natToLE k (n / 256)

/-- Modelled from the spec (§4.1): read a little-endian unsigned number
from a byte list. -/
def leToNat : List Nat → Nat
  | [] => 0
  | b :: bs => b + 256 * leToNat bs

/-- Modelled from the spec (§4.1 Array datatypes): numeric arrays are
"encoded into bytes_value as packed little-endian", each element taking the
natural fixed-width size `k`. -/
def encodeNatArray (k : Nat) : List Nat → List Nat
  | [] => []
  | x :: xs => natToLE k x ++ encodeNatArray k xs

/-- Modelled from the spec (§4.1): inverse of `encodeNatArray`; a byte
count that is not a multiple of the element width is a decode failure. -/
def decodeNatArray (k : Nat) (bs : List Nat) : Option (List Nat) :=
  if _hk : k = 0 then none
  else if _hb : bs = [] then some []
  else if _hlen : k ≤ bs.length then
    (decodeNatArray k (bs.drop k)).map (fun rest => leToNat (bs.take k) :: rest)
  else none
termination_by bs.length
decreasing_by
  simp only [List.length_drop]
  cases bs with
  | nil => exact absurd rfl _hb
  | cons b t => simp only [List.length_cons]; omega

/-- Modelled from the spec (§4.1, scenario 6): pack up to eight booleans
into one byte, LSB-first within the byte. -/
def bitsToByte (bs : List Bool) : Nat :=
  bs.foldr (fun b acc => 2 * acc + (if b then 1 else 0)) 0

/-- Modelled from the spec (§4.1, scenario 6): read the eight bits of a
byte, LSB-first. -/
def byteToBits (n : Nat) : List Bool :=
  (List.range 8).map (fun i => n.testBit i)

/-- Modelled from the spec (§4.1): "BOOLEAN_ARRAY packs 1 bit per element
... remaining bits LSB-first within each byte". -/
def packBits : List Bool → List Nat
  | [] => []
  | b :: bs => bitsToByte (b :: bs.take 7) :: packBits (bs.drop 7)
termination_by l => l.length
decreasing_by simp only [List.length_drop, List.length_cons]; omega

/-- Modelled from the spec (§4.1): unpack every byte into its eight bits,
LSB-first. -/
def unpackBits : List Nat → List Bool
  | [] => []
  | b :: bs => byteToBits b ++ unpackBits bs

/-- Modelled from the spec (§4.1): the byte content of one string, here
abstracted to the sequence of character codes. -/
def strBytes (s : String) : List Nat :=
  s.data.map Char.toNat

/-- Modelled from the spec (§4.1): "STRING_ARRAY concatenates
NUL-terminated UTF-8 strings". -/
def encodeStrArray : List String → List Nat
  | [] => []
  | s :: ss => strBytes s ++ 0 :: encodeStrArray ss

/-- Modelled from the spec (§4.1): inverse of `encodeStrArray` — read
NUL-terminated chunks; a missing terminator is a decode failure. -/
def decodeStrArray (bs : List Nat) : Option (List String) :=
  if _hb : bs = [] then some []
  else if _h : (bs.takeWhile (fun b => b != 0)).length < bs.length then
    (decodeStrArray (bs.drop ((bs.takeWhile (fun b => b != 0)).length + 1))).map
      (fun ss => String.mk ((bs.takeWhile (fun b => b != 0)).map Char.ofNat) :: ss)
  else none
termination_by bs.length
decreasing_by simp only [List.length_drop]; omega

/-- A string none of whose characters is the NUL character. -/
def nulFree (s : String) : Bool :=
  s.data.all (fun c => c.toNat != 0)

/-- Whether an integer lies in the signed 64-bit range, as required before
packing into an int64 wire slot. -/
def int64Range (i : Int) : Bool :=
  decide (-(2 ^ 63) ≤ i ∧ i < 2 ^ 63)

/-- Modelled from the spec (§3 C1): "a predicate accepting admissible
runtime values (e.g. UINT8 → integer in [0, 255]; arrays → homogeneous,
finite-length sequence of the element type)".  `off` is the local-timezone
UTC offset in milliseconds, used only to require that a datetime's
converted value fit the int64 wire slot. -/
def validValue (off : Int) (d : DataType) (v : MetricValue) : Bool :=
  match d, v with
  | .int8, .int i => decide (-(2 ^ 7) ≤ i ∧ i < 2 ^ 7)
  | .int16, .int i => decide (-(2 ^ 15) ≤ i ∧ i < 2 ^ 15)
  | .int32, .int i => decide (-(2 ^ 31) ≤ i ∧ i < 2 ^ 31)
  | .int64, .int i => decide (-(2 ^ 63) ≤ i ∧ i < 2 ^ 63)
  | .uint8, .int i => decide (0 ≤ i ∧ i < 2 ^ 8)
  | .uint16, .int i => decide (0 ≤ i ∧ i < 2 ^ 16)
  | .uint32, .int i => decide (0 ≤ i ∧ i < 2 ^ 32)
  | .uint64, .int i => decide (0 ≤ i ∧ i < 2 ^ 64)
  | .float, .flt b => decide (b < 2 ^ 32)
  | .double, .dbl b => decide (b < 2 ^ 64)
  | .boolean, .boolean _ => true
  | .string, .str _ => true
  | .text, .str _ => true
  | .uuid, .str _ => true
  | .bytes, .bytes bs => bs.all (fun b => decide (b < 256))
  | .file, .bytes bs => bs.all (fun b => decide (b < 256))
  | .datetime, .datetime dt => int64Range (utcMs off dt)
  | .int8Array, .intArray xs => xs.all (fun i => decide (-(2 ^ 7) ≤ i ∧ i < 2 ^ 7))
  | .int16Array, .intArray xs => xs.all (fun i => decide (-(2 ^ 15) ≤ i ∧ i < 2 ^ 15))
  | .int32Array, .intArray xs => xs.all (fun i => decide (-(2 ^ 31) ≤ i ∧ i < 2 ^ 31))
  | .int64Array, .intArray xs => xs.all (fun i => decide (-(2 ^ 63) ≤ i ∧ i < 2 ^ 63))
  | .uint8Array, .intArray xs => xs.all (fun i => decide (0 ≤ i ∧ i < 2 ^ 8))
  | .uint16Array, .intArray xs => xs.all (fun i => decide (0 ≤ i ∧ i < 2 ^ 16))
  | .uint32Array, .intArray xs => xs.all (fun i => decide (0 ≤ i ∧ i < 2 ^ 32))
  | .uint64Array, .intArray xs => xs.all (fun i => decide (0 ≤ i ∧ i < 2 ^ 64))
  | .floatArray, .fltArray xs => xs.all (fun b => decide (b < 2 ^ 32))
  | .doubleArray, .dblArray xs => xs.all (fun b => decide (b < 2 ^ 64))
  | .booleanArray, .booleanArray xs => decide (xs.length < 2 ^ 32)
  | .stringArray, .strArray _ => true
  | .datetimeArray, .datetimeArray xs => xs.all (fun dt => int64Range (utcMs off dt))
  | _, _ => false

/-- Modelled from the spec (§8 Integer range, §3 C1): the inclusive
admissible bounds of each integer datatype. -/
def intBounds : DataType → Option (Int × Int)
  | .int8 => some (-(2 ^ 7), 2 ^ 7 - 1)
  | .int16 => some (-(2 ^ 15), 2 ^ 15 - 1)
  | .int32 => some (-(2 ^ 31), 2 ^ 31 - 1)
  | .int64 => some (-(2 ^ 63), 2 ^ 63 - 1)
  | .uint8 => some (0, 2 ^ 8 - 1)
  | .uint16 => some (0, 2 ^ 16 - 1)
  | .uint32 => some (0, 2 ^ 32 - 1)
  | .uint64 => some (0, 2 ^ 64 - 1)
  | _ => none

/-- Modelled from the spec (§4.1): the value slot of a wire `Metric`
message — exactly one of the protobuf `oneof` alternatives. -/
inductive WireValue where
  | intVal (n : Nat)
  | longVal (n : Nat)
  | floatVal (n : Nat)
  | doubleVal (n : Nat)
  | boolVal (b : Bool)
  | strVal (s : String)
  | bytesVal (bs : List Nat)
  deriving DecidableEq, Repr

/-- Modelled from the spec (§4.1): the wire-level `Metric` message —
datatype carried as its numeric tag, `is_null` flag, and at most one
populated value slot. -/
structure WireMetric where
  name : Option String
  timestamp : Int
  datatype : Nat
  is_null : Bool
  is_historical : Bool
  is_transient : Bool
  metadata : Option MetaData
  value : Option WireValue
  deriving DecidableEq, Repr

/-- Modelled from the spec (§4.1): which wire slot each supported datatype
writes, and how the runtime value is packed into it.  Returns `none` when
the value's shape does not match the datatype. -/
def encodeWireValue (off : Int) (d : DataType) (v : MetricValue) : Option WireValue :=
  match d, v with
  | .int8, .int i => some (.intVal (tcEncode 8 i))
  | .int16, .int i => some (.intVal (tcEncode 16 i))
  | .int32, .int i => some (.intVal (tcEncode 32 i))
  | .int64, .int i => some (.longVal (tcEncode 64 i))
  | .uint8, .int i => some (.intVal i.toNat)
  | .uint16, .int i => some (.intVal i.toNat)
  | .uint32, .int i => some (.intVal i.toNat)
  | .uint64, .int i => some (.longVal i.toNat)
  | .float, .flt b => some (.floatVal b)
  | .double, .dbl b => some (.doubleVal b)
  | .boolean, .boolean b => some (.boolVal b)
  | .string, .str s => some (.strVal s)
  | .text, .str s => some (.strVal s)
  | .uuid, .str s => some (.strVal s)
  | .bytes, .bytes bs => some (.bytesVal bs)
  | .file, .bytes bs => some (.bytesVal bs)
  | .datetime, .datetime dt => some (.longVal (tcEncode 64 (utcMs off dt)))
  | .int8Array, .intArray xs => some (.bytesVal (encodeNatArray 1 (xs.map (tcEncode 8))))
  | .int16Array, .intArray xs => some (.bytesVal (encodeNatArray 2 (xs.map (tcEncode 16))))
  | .int32Array, .intArray xs => some (.bytesVal (encodeNatArray 4 (xs.map (tcEncode 32))))
  | .int64Array, .intArray xs => some (.bytesVal (encodeNatArray 8 (xs.map (tcEncode 64))))
  | .uint8Array, .intArray xs => some (.bytesVal (encodeNatArray 1 (xs.map Int.toNat)))
  | .uint16Array, .intArray xs => some (.bytesVal (encodeNatArray 2 (xs.map Int.toNat)))
  | .uint32Array, .intArray xs => some (.bytesVal (encodeNatArray 4 (xs.map Int.toNat)))
  | .uint64Array, .intArray xs => some (.bytesVal (encodeNatArray 8 (xs.map Int.toNat)))
  | .floatArray, .fltArray xs => some (.bytesVal (encodeNatArray 4 xs))
  | .doubleArray, .dblArray xs => some (.bytesVal (encodeNatArray 8 xs))
  | .booleanArray, .booleanArray xs =>
    some (.bytesVal (natToLE 4 xs.length ++ packBits xs))
  | .stringArray, .strArray xs => some (.bytesVal (encodeStrArray xs))
  | .datetimeArray, .datetimeArray xs =>
    some (.bytesVal (encodeNatArray 8 (xs.map (fun dt => tcEncode 64 (utcMs off dt)))))
  | _, _ => none

/-- Modelled from the spec (§4.1): read a runtime value of datatype `d`
back out of a wire slot; decoded datetimes are UTC-aware (offset 0). -/
def decodeWireValue (d : DataType) (wv : WireValue) : Option MetricValue :=
  match d, wv with
  | .int8, .intVal n => some (.int (tcDecode 8 n))
  | .int16, .intVal n => some (.int (tcDecode 16 n))
  | .int32, .intVal n => some (.int (tcDecode 32 n))
  | .int64, .longVal n => some (.int (tcDecode 64 n))
  | .uint8, .intVal n => some (.int (n : Int))
  | .uint16, .intVal n => some (.int (n : Int))
  | .uint32, .intVal n => some (.int (n : Int))
  | .uint64, .longVal n => some (.int (n : Int))
  | .float, .floatVal b => some (.flt b)
  | .double, .doubleVal b => some (.dbl b)
  | .boolean, .boolVal b => some (.boolean b)
  | .string, .strVal s => some (.str s)
  | .text, .strVal s => some (.str s)
  | .uuid, .strVal s => some (.str s)
  | .bytes, .bytesVal bs => some (.bytes bs)
  | .file, .bytesVal bs => some (.bytes bs)
  | .datetime, .longVal n => some (.datetime ⟨tcDecode 64 n, some 0⟩)
  | .int8Array, .bytesVal bs =>
    (decodeNatArray 1 bs).map (fun ns => .intArray (ns.map (tcDecode 8)))
  | .int16Array, .bytesVal bs =>
    (decodeNatArray 2 bs).map (fun ns => .intArray (ns.map (tcDecode 16)))
  | .int32Array, .bytesVal bs =>
    (decodeNatArray 4 bs).map (fun ns => .intArray (ns.map (tcDecode 32)))
  | .int64Array, .bytesVal bs =>
    (decodeNatArray 8 bs).map (fun ns => .intArray (ns.map (tcDecode 64)))
  | .uint8Array, .bytesVal bs =>
    (decodeNatArray 1 bs).map (fun ns => .intArray (ns.map (fun (n : Nat) => (n : Int))))
  | .uint16Array, .bytesVal bs =>
    (decodeNatArray 2 bs).map (fun ns => .intArray (ns.map (fun (n : Nat) => (n : Int))))
  | .uint32Array, .bytesVal bs =>
    (decodeNatArray 4 bs).map (fun ns => .intArray (ns.map (fun (n : Nat) => (n : Int))))
  | .uint64Array, .bytesVal bs =>
    (decodeNatArray 8 bs).map (fun ns => .intArray (ns.map (fun (n : Nat) => (n : Int))))
  | .floatArray, .bytesVal bs => (decodeNatArray 4 bs).map .fltArray
  | .doubleArray, .bytesVal bs => (decodeNatArray 8 bs).map .dblArray
  | .booleanArray, .bytesVal bs =>
    if bs.length < 4 then none
    else
      let count := leToNat (bs.take 4)
      let bits := unpackBits (bs.drop 4)
      if count ≤ bits.length then some (.booleanArray (bits.take count)) else none
  | .stringArray, .bytesVal bs => (decodeStrArray bs).map .strArray
  | .datetimeArray, .bytesVal bs =>
    (decodeNatArray 8 bs).map
      (fun ns => .datetimeArray (ns.map (fun n => ⟨tcDecode 64 n, some 0⟩)))
  | _, _ => none

/-- Modelled from the spec (§4.1 Operations, §7): `encode_metric` —
unsupported datatypes fail with `NotImplementedDatatype`, out-of-range or
wrongly-shaped values with `InvalidMetric`; a null value sets `is_null` and
omits the value slot. -/
def encodeMetric (off : Int) (m : Metric) : Except SPError WireMetric :=
  if m.datatype.supported = false then .error .notImplementedDatatype
  else
    match m.value with
    | none =>
      .ok ⟨m.name, m.timestamp, m.datatype.tag, true,
        m.is_historical, m.is_transient, m.metadata, none⟩
    | some v =>
      if validValue off m.datatype v then
        match encodeWireValue off m.datatype v with
        | some wv =>
          .ok ⟨m.name, m.timestamp, m.datatype.tag, false,
            m.is_historical, m.is_transient, m.metadata, some wv⟩
        | none => .error .invalidMetric
      else .error .invalidMetric

/-- Modelled from the spec (§4.1 Operations, §7): `decode_metric` — a tag
outside the enumeration is a codec error, a known-but-unsupported tag fails
with `NotImplementedDatatype`, and a malformed value slot is a codec
error. -/
def decodeMetric (w : WireMetric) : Except SPError Metric :=
  match DataType.ofTag w.datatype with
  | none => .error .codecError
  | some d =>
    if d.supported = false then .error .notImplementedDatatype
    else if w.is_null then
      .ok ⟨w.name, w.timestamp, d, none, w.is_historical, w.is_transient, w.metadata⟩
    else
      match w.value with
      | none => .error .codecError
      | some wv =>
        match decodeWireValue d wv with
        | none => .error .codecError
        | some v =>
          .ok ⟨w.name, w.timestamp, d, some v, w.is_historical, w.is_transient, w.metadata⟩

/-- Modelled from the spec (§4.1 DateTime handling): the timezone
normalization that a codec round trip performs on datetime values — the
value is re-expressed as a UTC-aware datetime. -/
def normalizeValue (off : Int) : MetricValue → MetricValue
  | .datetime dt => .datetime ⟨utcMs off dt, some 0⟩
  | .datetimeArray xs => .datetimeArray (xs.map (fun dt => ⟨utcMs off dt, some 0⟩))
  | v => v

/-- Timezone normalization lifted to metrics. -/
def normalizeMetric (off : Int) (m : Metric) : Metric :=
  ⟨m.name, m.timestamp, m.datatype, m.value.map (normalizeValue off),
    m.is_historical, m.is_transient, m.metadata⟩

/-- Modelled from the spec (§3 Metric invariant): value matches the
datatype's predicate or is null; timestamp is non-negative; and the
datatype is one the library supports. -/
def validMetric (off : Int) (m : Metric) : Bool :=
  m.datatype.supported && decide (0 ≤ m.timestamp) &&
    (match m.value with
     | none => true
     | some v => validValue off m.datatype v)

/-- The strings of a STRING_ARRAY value contain no NUL character; values
of every other shape satisfy this trivially. -/
def valueNulFree : MetricValue → Bool
  | .strArray xs => xs.all nulFree
  | _ => true

/-- `valueNulFree` lifted to metrics. -/
def metricNulFree (m : Metric) : Bool :=
  match m.value with
  | none => true
  | some v => valueNulFree v

/-- Modelled from the spec (§3 Payload kinds): the Sparkplug B message
types, from the missing `_enums.py`/`_topic.py`. -/
inductive MessageType where
  | nbirth
  | ndata
  | ncmd
  | ndeath
  | dbirth
  | ddata
  | dcmd
  | ddeath
  | hostState
  deriving DecidableEq, Repr

namespace MessageType
/-- Modelled from the spec: the string form of each message type as it
appears in the topic. -/
def str : MessageType → String
  | .nbirth => "NBIRTH"
  | .ndata => "NDATA"
  | .ncmd => "NCMD"
  | .ndeath => "NDEATH"
  | .dbirth => "DBIRTH"
  | .ddata => "DDATA"
  | .dcmd => "DCMD"
  | .ddeath => "DDEATH"
  | .hostState => "STATE"
/-- Modelled from the spec: inverse lookup of a message-type string. -/
def ofStr (s : String) : Option MessageType :=
  if s = "NBIRTH" then some .nbirth
  else if s = "NDATA" then some .ndata
  else if s = "NCMD" then some .ncmd
  else if s = "NDEATH" then some .ndeath
  else if s = "DBIRTH" then some .dbirth
  else if s = "DDATA" then some .ddata
  else if s = "DCMD" then some .dcmd
  else if s = "DDEATH" then some .ddeath
  else if s = "STATE" then some .hostState
  else none
/-- Modelled from the spec (§3 Topic): the node-level message types, which
use the 4-component topic form. -/
def isNode : MessageType → Bool
  | .nbirth => true
  | .ndata => true
  | .ncmd => true
  | .ndeath => true
  | _ => false
/-- Modelled from the spec (§3 Topic): the device-level message types,
which use the 5-component topic form. -/
def isDevice : MessageType → Bool
  | .dbirth => true
  | .ddata => true
  | .dcmd => true
  | .ddeath => true
  | _ => false
/-- Modelled from the spec (§4.6): the sequence-numbered message types —
NBIRTH, NDATA, DBIRTH, DDATA, DDEATH carry a seq field. -/
def hasSeq : MessageType → Bool
  | .nbirth => true
  | .ndata => true
  | .dbirth => true
  | .ddata => true
  | .ddeath => true
  | _ => false
end MessageType

/-- Modelled from the spec (§4.2): a topic's message-type component — a
message type, or the single-level wildcard usable in subscriptions. -/
inductive MTW where
  | mt (m : MessageType)
  | plus
  deriving DecidableEq, Repr

/-- String form of a message-type component. -/
def MTW.str : MTW → String
  | .mt m => m.str
  | .plus => "+"

/-- Modelled from the spec (§4.2): read a message-type component. -/
def MTW.ofStr (s : String) : Option MTW :=
  if s = "+" then some .plus
  else (MessageType.ofStr s).map .mt

/-- Modelled from the spec (§3 Topic): a parsed topic — the node form
(4 components), the device form (5 components), or the host STATE form. -/
inductive Topic where
  | node (group : String) (mtw : MTW) (edge : String)
  | device (group : String) (mtw : MTW) (edge : String) (dev : String)
  | stateTopic (host : String)
  deriving DecidableEq, Repr

/-- Modelled from the spec (§3 Topic): a plain (non-wildcard) component —
non-empty and free of '+', '#', '/'. -/
def plainComp (s : String) : Bool :=
  !s.isEmpty && s.data.all (fun c => !(c = '/' || c = '+' || c = '#'))

/-- Modelled from the spec (§4.2): an admissible component in a terminal
position — plain, or either wildcard. -/
def subComp (s : String) : Bool :=
  plainComp s || s = "+" || s = "#"

/-- Modelled from the spec (§4.2): an admissible component in a
non-terminal position — '#' is rejected in non-terminal position. -/
def subCompNT (s : String) : Bool :=
  plainComp s || s = "+"

/-- Modelled from the spec (§3, §4.2): validity of a parsed topic — the
arity matches the message type, every component admissible, and '#' only
in terminal position. -/
def validTopic : Topic → Bool
  | .node g mtw e =>
    subCompNT g &&
      (match mtw with | .mt m => m.isNode | .plus => true) && subComp e
  | .device g mtw e d =>
    subCompNT g &&
      (match mtw with | .mt m => m.isDevice | .plus => true) &&
      subCompNT e && subComp d
  | .stateTopic h => subComp h

/-- Split a character list at '/' separators. -/
def splitSlash : List Char → List (List Char)
  | [] => [[]]
  | c :: cs =>
    if c = '/' then [] :: splitSlash cs
    else
      match splitSlash cs with
      | [] => [[c]]
      | g :: gs => (c :: g) :: gs

/-- Join character lists with '/' separators; inverse of `splitSlash`. -/
def joinSlash : List (List Char) → List Char
  | [] => []
  | [g] => g
  | g :: gs => g ++ '/' :: joinSlash gs

/-- Modelled from the spec (§4.2): "Stringification is the inverse join" —
the topic's components joined with '/' separators. -/
def Topic.str : Topic → String
  | .node g mtw e =>
    String.mk (joinSlash ["spBv1.0".data, g.data, mtw.str.data, e.data])
  | .device g mtw e d =>
    String.mk (joinSlash ["spBv1.0".data, g.data, mtw.str.data, e.data, d.data])
  | .stateTopic h =>
    String.mk (joinSlash ["spBv1.0".data, "STATE".data, h.data])

/-- Modelled from the spec (§4.2 Parsing): split on '/', accept 3
components for STATE, 4 for node types, 5 for device types; reject empty
or malformed components and '#' in non-terminal position. -/
def Topic.parse (s : String) : Except SPError Topic :=
  match (splitSlash s.data).map (fun l => String.mk l) with
  | [ns, st, h] =>
    if ns = "spBv1.0" ∧ st = "STATE" ∧ subComp h = true then .ok (.stateTopic h)
    else .error .invalidTopic
  | [ns, g, mts, e] =>
    match MTW.ofStr mts with
    | some mtw =>
      if ns = "spBv1.0" ∧ subCompNT g = true ∧
          (match mtw with | .mt m => m.isNode | .plus => true) = true ∧
          subComp e = true then
        .ok (.node g mtw e)
      else .error .invalidTopic
    | none => .error .invalidTopic
  | [ns, g, mts, e, d] =>
    match MTW.ofStr mts with
    | some mtw =>
      if ns = "spBv1.0" ∧ subCompNT g = true ∧
          (match mtw with | .mt m => m.isDevice | .plus => true) = true ∧
          subCompNT e = true ∧ subComp d = true then
        .ok (.device g mtw e d)
      else .error .invalidTopic
    | none => .error .invalidTopic
  | _ => .error .invalidTopic

/-- A topic string free of MQTT wildcard characters. -/
def noWildcards (s : String) : Bool :=
  s.data.all (fun c => !(c = '+' || c = '#'))

/-- Modelled from the spec (§4.5 C7, host interface): a Device — its id and
birth metric set. -/
structure Device where
  device_id : String
  birth_metrics : List Metric
  deriving DecidableEq, Repr

/-- Modelled from the spec (§3 EdgeNode session state): the edge node's
session state, from the missing `_edge_node.py`. -/
structure EdgeNode where
  group_id : String
  edge_node_id : String
  birth_metrics : List Metric
  bdSeqCounter : Nat
  sessionBdSeq : Nat
  seq : Nat
  devices : List Device
  connected : Bool
  willBdSeq : Option Nat
  lastValues : List (Option String × Option MetricValue)
  deriving DecidableEq, Repr

/-- Modelled from the spec (§4.5): the observable actions of an edge node —
MQTT publishes (with topic, message type, optional seq, metric body),
will arming, and the MQTT connect/disconnect operations. -/
inductive Event where
  | published (t : Topic) (mt : MessageType) (seq : Option Nat) (metrics : List Metric)
  | willArmed (bdSeq : Nat)
  | mqttConnect
  | mqttDisconnect
  deriving DecidableEq, Repr

/-- The message type of an event, when it is a publish. -/
def Event.mtOf : Event → Option MessageType
  | .published _ mt _ _ => some mt
  | _ => none

/-- Modelled from the spec (§3 NBIRTH/NDEATH): the well-known `bdSeq`
metric, a UINT64. -/
def bdSeqMetric (bd : Nat) : Metric :=
  ⟨some "bdSeq", 0, .uint64, some (.int (bd : Int)), false, false, none⟩

/-- The node-level topic of this edge node for a message type. -/
def nodeTopic (nd : EdgeNode) (m : MessageType) : Topic :=
  .node nd.group_id (.mt m) nd.edge_node_id

/-- The device-level topic of this edge node for a message type and device
id. -/
def deviceTopic (nd : EdgeNode) (m : MessageType) (did : String) : Topic :=
  .device nd.group_id (.mt m) nd.edge_node_id did

/-- Modelled from the spec (§4.5 Connecting→Online): publish DBIRTH for
every registered device, each with the node's next shared seq. -/
def birthDevices (nd : EdgeNode) (s : Nat) : List Device → List Event × Nat
  | [] => ([], s)
  | d :: ds =>
    let r := birthDevices nd ((s + 1) % 256) ds
    (Event.published (deviceTopic nd .dbirth d.device_id) .dbirth (some s)
        d.birth_metrics :: r.1,
      r.2)

/-- Modelled from the spec (§4.5 disconnect): publish DDEATH for every
registered device, each with the node's next shared seq; DDEATH bodies
carry no metrics. -/
def deathDevices (nd : EdgeNode) (s : Nat) : List Device → List Event × Nat
  | [] => ([], s)
  | d :: ds =>
    let r := deathDevices nd ((s + 1) % 256) ds
    (Event.published (deviceTopic nd .ddeath d.device_id) .ddeath (some s) [] :: r.1,
      r.2)

/-- Modelled from the spec (§6 host interface): the public operations of an
edge node. -/
inductive Cmd where
  | connect
  | update (ms : List Metric)
  | updateDevice (id : String) (ms : List Metric)
  | register (d : Device)
  | deregister (id : String)
  | disconnect
  | rebirth
  deriving DecidableEq, Repr

/-- The outcome of one operation: the successor state, the events emitted,
and the error raised, if any. -/
structure StepResult where
  node : EdgeNode
  events : List Event
  error : Option SPError
  deriving DecidableEq, Repr

/-- Find a registered device by id. -/
def findDevice (ds : List Device) (id : String) : Option Device :=
  ds.find? (fun d => d.device_id == id)

/-- Modelled from the spec (§4.5): every metric name of `ms` appears in the
birth metric set. -/
def inBirth (birth : List Metric) (ms : List Metric) : Bool :=
  ms.all (fun m => birth.any (fun b => b.name == m.name))

/-- Update the last-known values with the metrics of a publish. -/
def updateVals (lv : List (Option String × Option MetricValue)) (ms : List Metric) :
    List (Option String × Option MetricValue) :=
  ms.map (fun m => (m.name, m.value)) ++
    lv.filter (fun p => ms.all (fun m => !(m.name == p.1)))

/-- Modelled from the spec (§4.5 EdgeNode state machine): one public
operation.  `connect` arms the will with the current bdSeq, increments the
bdSeq counter (mod 2^64), publishes NBIRTH with seq 0 followed by DBIRTH
for every registered device; `update`/`update_device` publish NDATA/DDATA
with the next shared seq, rejecting metrics outside the birth set;
`register`/`deregister` publish DBIRTH/DDEATH when online; `disconnect`
publishes DDEATH for every device, then NDEATH with the session's bdSeq,
then disconnects; a rebirth NCMD restarts the birth sequence with seq 0
without touching bdSeq. -/
def step (nd : EdgeNode) (c : Cmd) : StepResult :=
  match c with
  | .connect =>
    if nd.connected then ⟨nd, [], some .invalidState⟩
    else
      let bd := nd.bdSeqCounter
      let r := birthDevices nd 1 nd.devices
      ⟨{ nd with
          connected := true
          sessionBdSeq := bd
          bdSeqCounter := (bd + 1) % 2 ^ 64
          willBdSeq := some bd
          seq := r.2 },
        Event.willArmed bd :: Event.mqttConnect ::
          Event.published (nodeTopic nd .nbirth) .nbirth (some 0)
            (bdSeqMetric bd :: nd.birth_metrics) :: r.1,
        none⟩
  | .update ms =>
    if nd.connected = false then ⟨nd, [], some .invalidState⟩
    else if inBirth nd.birth_metrics ms = false then ⟨nd, [], some .notInBirthSet⟩
    else
      ⟨{ nd with
          seq := (nd.seq + 1) % 256
          lastValues := updateVals nd.lastValues ms },
        [Event.published (nodeTopic nd .ndata) .ndata (some nd.seq) ms], none⟩
  | .updateDevice id ms =>
    if nd.connected = false then ⟨nd, [], some .invalidState⟩
    else
      match findDevice nd.devices id with
      | none => ⟨nd, [], some .invalidState⟩
      | some d =>
        if inBirth d.birth_metrics ms = false then ⟨nd, [], some .notInBirthSet⟩
        else
          ⟨{ nd with seq := (nd.seq + 1) % 256 },
            [Event.published (deviceTopic nd .ddata id) .ddata (some nd.seq) ms], none⟩
  | .register d =>
    match findDevice nd.devices d.device_id with
    | some _ => ⟨nd, [], some .invalidState⟩
    | none =>
      if nd.connected then
        ⟨{ nd with
            devices := nd.devices ++ [d]
            seq := (nd.seq + 1) % 256 },
          [Event.published (deviceTopic nd .dbirth d.device_id) .dbirth (some nd.seq)
            d.birth_metrics], none⟩
      else ⟨{ nd with devices := nd.devices ++ [d] }, [], none⟩
  | .deregister id =>
    match findDevice nd.devices id with
    | none => ⟨nd, [], some .invalidState⟩
    | some _ =>
      if nd.connected then
        ⟨{ nd with
            devices := nd.devices.filter (fun d => !(d.device_id == id))
            seq := (nd.seq + 1) % 256 },
          [Event.published (deviceTopic nd .ddeath id) .ddeath (some nd.seq) []], none⟩
      else
        ⟨{ nd with devices := nd.devices.filter (fun d => !(d.device_id == id)) },
          [], none⟩
  | .disconnect =>
    if nd.connected = false then ⟨nd, [], some .invalidState⟩
    else
      let r := deathDevices nd nd.seq nd.devices
      ⟨{ nd with
          connected := false
          willBdSeq := none },
        r.1 ++ [Event.published (nodeTopic nd .ndeath) .ndeath none
            [bdSeqMetric nd.sessionBdSeq],
          Event.mqttDisconnect], none⟩
  | .rebirth =>
    if nd.connected = false then ⟨nd, [], none⟩
    else
      let r := birthDevices nd 1 nd.devices
      ⟨{ nd with seq := r.2 },
        Event.published (nodeTopic nd .nbirth) .nbirth (some 0)
            (bdSeqMetric nd.sessionBdSeq :: nd.birth_metrics) :: r.1,
        none⟩

/-- Run a list of operations from a state, collecting emitted events. -/
def run (nd : EdgeNode) : List Cmd → EdgeNode × List Event
  | [] => (nd, [])
  | c :: cs =>
    let r := step nd c
    let r2 := run r.node cs
    (r2.1, r.events ++ r2.2)

/-- Modelled from the spec (§6): a freshly constructed, offline edge
node. -/
def mkEdgeNode (g n : String) (bm : List Metric) : EdgeNode :=
  ⟨g, n, bm, 0, 0, 0, [], false, none, []⟩

/-- The sequence-discipline checker of §4.5/§8: carries the expected next
seq (`none` before the first NBIRTH); NBIRTH must publish seq 0 and resets
the expectation to 1; every other seq-numbered publish must carry the
expected value and bumps it by 1 mod 256; NDEATH, STATE (and commands)
must carry no seq. -/
def seqCheck1 (e : Option Nat) : Event → Option (Option Nat)
  | Event.published _ mt sq _ =>
    if mt = .nbirth then
      if sq = some 0 then some (some 1) else none
    else if mt.hasSeq then
      match sq, e with
      | some s, some exp =>
        if s = exp then some (some ((s + 1) % 256)) else none
      | _, _ => none
    else
      if sq = none then some e else none
  | _ => some e

/-- The whole-trace sequence checker: fold `seqCheck1` over the events. -/
def seqCheck (e : Option Nat) : List Event → Option (Option Nat)
  | [] => some e
  | ev :: rest => (seqCheck1 e ev).bind (fun e2 => seqCheck e2 rest)

/-- The bdSeq value carried by a metric list: the value of its first
`bdSeq` metric. -/
def metricBd (ms : List Metric) : Option Nat :=
  match ms.find? (fun m => m.name == some "bdSeq") with
  | some m =>
    match m.value with
    | some (.int i) => some i.toNat
    | _ => none
  | none => none

/-- The bdSeq-pairing checker of §4.5/§8: carries the armed will's bdSeq;
every NBIRTH and NDEATH must carry exactly that bdSeq; a graceful MQTT
disconnect clears the armed will. -/
def bdCheck1 (w : Option Nat) : Event → Option (Option Nat)
  | Event.willArmed b => some (some b)
  | Event.mqttDisconnect => some none
  | Event.published _ mt _ ms =>
    if mt = .nbirth ∨ mt = .ndeath then
      match w, metricBd ms with
      | some b, some b2 => if b2 = b then some w else none
      | _, _ => none
    else some w
  | Event.mqttConnect => some w

/-- The whole-trace bdSeq checker: fold `bdCheck1` over the events. -/
def bdCheck (w : Option Nat) : List Event → Option (Option Nat)
  | [] => some w
  | ev :: rest => (bdCheck1 w ev).bind (fun w2 => bdCheck w2 rest)

/-- The names of a metric list. -/
def namesOf (ms : List Metric) : List (Option String) :=
  ms.map (fun m => m.name)

/-- The birth-set-closure checker of §8: tracks the node's birth names
(from the last NBIRTH) and each device's birth names (from its last
DBIRTH); every NDATA metric name must appear in the node's birth names and
every DDATA metric name in its device's birth names.  Returns the tracked
state on success and `none` on a violation. -/
def birthCheck1 (nb : Option (List (Option String)))
    (db : List (String × List (Option String))) :
    Event → Option (Option (List (Option String)) × List (String × List (Option String)))
  | Event.published t mt _ ms =>
    match mt with
    | .nbirth => some (some (namesOf ms), db)
    | .dbirth =>
      match t with
      | .device _ _ _ did => some (nb, (did, namesOf ms) :: db)
      | _ => none
    | .ndata =>
      match nb with
      | some names =>
        if ms.all (fun m => names.any (fun x => x == m.name)) then some (nb, db)
        else none
      | none => none
    | .ddata =>
      match t with
      | .device _ _ _ did =>
        match db.find? (fun p => p.1 == did) with
        | some p =>
          if ms.all (fun m => p.2.any (fun x => x == m.name)) then some (nb, db)
          else none
        | none => none
      | _ => none
    | _ => some (nb, db)
  | _ => some (nb, db)

/-- The whole-trace birth-closure checker: fold `birthCheck1` over the
events. -/
def birthCheck (nb : Option (List (Option String)))
    (db : List (String × List (Option String))) :
    List Event →
    Option (Option (List (Option String)) × List (String × List (Option String)))
  | [] => some (nb, db)
  | ev :: rest => (birthCheck1 nb db ev).bind (fun st => birthCheck st.1 st.2 rest)

/-- The seq invariant: while connected, the checker's expected next seq is
the node's counter, which stays below 256. -/
def seqInv (nd : EdgeNode) (e : Option Nat) : Prop :=
  nd.connected = true → (e = some nd.seq ∧ nd.seq < 256)

/-- The bdSeq invariant: while connected, the armed will carries exactly
the session's bdSeq. -/
def bdInv (nd : EdgeNode) (w : Option Nat) : Prop :=
  nd.connected = true → w = some nd.sessionBdSeq

/-- The device-birth entries that a run of DBIRTH publishes adds for a
device list. -/
def devEntries (ds : List Device) : List (String × List (Option String)) :=
  ds.map (fun d => (d.device_id, namesOf d.birth_metrics))

/-- The birth-closure invariant: device ids are distinct, and while
connected the checker's node birth names are the NBIRTH body's names and
its device map carries each registered device's birth names. -/
def birthInv (nd : EdgeNode)
    (st : Option (List (Option String)) × List (String × List (Option String))) :
    Prop :=
  (nd.devices.map (fun d => d.device_id)).Nodup ∧
  (nd.connected = true →
    st.1 = some (some "bdSeq" :: namesOf nd.birth_metrics) ∧
    ∀ d ∈ nd.devices, st.2.find? (fun q => q.1 == d.device_id) =
      some (d.device_id, namesOf d.birth_metrics))

/-- Modelled from the spec (§8): a metric inside the node birth set. -/
def metric7a : Metric := ⟨some "temp", 0, .int32, some (.int 5), false, false, none⟩

/-- Modelled from the spec (§8): a metric outside the node birth set. -/
def metric7b : Metric := ⟨some "other", 0, .int32, some (.int 1), false, false, none⟩

/-- Modelled from the spec (§8): a registered device carrying one birth
metric. -/
def dev7 : Device := ⟨"dev1", [metric7a]⟩

/-- Modelled from the spec (§8): an online edge node with one registered
device. -/
def node7 : EdgeNode := ⟨"g", "n", [metric7a], 1, 0, 1, [dev7], true, some 0, []⟩

/-- Modelled from the spec (§8 update_device test): the metric
Metric("x", INT16, -4). -/
def metric8 : Metric := ⟨some "x", 0, .int16, some (.int (-4)), false, false, none⟩

/-- Modelled from the spec (§8): the registered device "dev1" whose birth
set carries `metric8`. -/
def dev8 : Device := ⟨"dev1", [metric8]⟩

/-- Modelled from the spec (§8): an online edge node "n" in group "g" with
device "dev1" registered. -/
def node8 : EdgeNode := ⟨"g", "n", [], 1, 0, 1, [dev8], true, some 0, []⟩

theorem tcEncode_lt (w : Nat) (i : Int) : tcEncode w i < 2 ^ w := by
  have h2 : (0 : Int) < (2 : Int) ^ w := by positivity
  have := Int.emod_lt_of_pos i h2
  have h0 := Int.emod_nonneg i (ne_of_gt h2)
  have hcast : ((2 : Int) ^ w) = ((2 ^ w : Nat) : Int) := by push_cast; ring
  unfold tcEncode
  omega

theorem tcDecode_tcEncode (w : Nat) (i : Int)
    (hlo : -(2 : Int) ^ (w - 1) ≤ i) (hhi : i < 2 ^ (w - 1)) (hw : 1 ≤ w) :
    tcDecode w (tcEncode w i) = i := by
  have h2 : (0 : Int) < (2 : Int) ^ w := by positivity
  have hsplit : (2 : Int) ^ w = 2 ^ (w - 1) * 2 := by
    rw [← pow_succ]
    congr 1
    omega
  unfold tcEncode tcDecode
  rcases le_or_lt 0 i with hpos | hneg
  · have hmod : i % ((2 : Int) ^ w) = i := by
      apply Int.emod_eq_of_lt hpos
      omega
    rw [hmod]
    have hto : ((i.toNat : Int)) = i := Int.toNat_of_nonneg hpos
    have hlt : i.toNat < 2 ^ (w - 1) := by
      have : ((2 : Int) ^ (w - 1)) = ((2 ^ (w - 1) : Nat) : Int) := by push_cast; ring
      omega
    simp only [hlt, if_pos, hto]
  · have hmod : i % ((2 : Int) ^ w) = i + 2 ^ w := by
      have : (i + 2 ^ w) % ((2 : Int) ^ w) = i % ((2 : Int) ^ w) := by
        have h := Int.add_mul_emod_self_left (a := i) (b := (2 : Int) ^ w) (c := 1)
        simp only [mul_one] at h
        exact h
      rw [← this]
      apply Int.emod_eq_of_lt <;> omega
    rw [hmod]
    have hnn : (0 : Int) ≤ i + 2 ^ w := by omega
    have hto : (((i + 2 ^ w).toNat : Int)) = i + 2 ^ w := Int.toNat_of_nonneg hnn
    have hge : ¬ ((i + 2 ^ w).toNat < 2 ^ (w - 1)) := by
      have : ((2 : Int) ^ (w - 1)) = ((2 ^ (w - 1) : Nat) : Int) := by push_cast; ring
      omega
    simp only [hge, if_neg, not_false_iff, hto]
    omega

theorem length_natToLE (k n : Nat) : (natToLE k n).length = k := by
  induction k generalizing n with
  | zero => rfl
  | succ k ih => simp [natToLE, ih]

theorem leToNat_natToLE (k n : Nat) (h : n < 2 ^ (8 * k)) :
    leToNat (natToLE k n) = n := by
  induction k generalizing n with
  | zero =>
    simp only [natToLE, leToNat]
    simp only [Nat.mul_zero, pow_zero, Nat.lt_one_iff] at h
    omega
  | succ k ih =>
    simp only [natToLE, leToNat]
    have hexp : 2 ^ (8 * (k + 1)) = 2 ^ (8 * k) * 256 := by
      have h8 : 8 * (k + 1) = 8 * k + 8 := by ring
      rw [h8, pow_add]
      norm_num
    have hdiv : n / 256 < 2 ^ (8 * k) := Nat.div_lt_of_lt_mul (by omega)
    rw [ih _ hdiv]
    omega

theorem decodeNatArray_encodeNatArray (k : Nat) (xs : List Nat)
    (hk : 1 ≤ k) (hx : ∀ x ∈ xs, x < 2 ^ (8 * k)) :
    decodeNatArray k (encodeNatArray k xs) = some xs := by
  induction xs with
  | nil =>
    rw [decodeNatArray, dif_neg (by omega : ¬ k = 0)]
    simp [encodeNatArray]
  | cons x xs ih =>
    have hlenx : (natToLE k x).length = k := length_natToLE k x
    have hne : encodeNatArray k (x :: xs) ≠ [] := by
      simp only [encodeNatArray]
      intro h
      have := congrArg List.length h
      simp [hlenx] at this
      omega
    rw [decodeNatArray]
    simp only [encodeNatArray] at hne ⊢
    rw [dif_neg (by omega), dif_neg hne, dif_pos (by simp [hlenx])]
    rw [List.take_left' hlenx, List.drop_left' hlenx]
    rw [ih (fun y hy => hx y (List.mem_cons_of_mem x hy))]
    rw [leToNat_natToLE k x (hx x (List.mem_cons_self x xs))]
    rfl

theorem byteToBits_bitsToByte (l : List Bool) (h : l.length ≤ 8) :
    byteToBits (bitsToByte l) = l ++ List.replicate (8 - l.length) false := by
  rcases l with _ | ⟨b0, _ | ⟨b1, _ | ⟨b2, _ | ⟨b3, _ | ⟨b4, _ | ⟨b5, _ | ⟨b6, _ | ⟨b7, _ | ⟨b8, t⟩⟩⟩⟩⟩⟩⟩⟩⟩
  · revert h; decide
  · revert b0; decide
  · revert b0 b1; decide
  · revert b0 b1 b2; decide
  · revert b0 b1 b2 b3; decide
  · revert b0 b1 b2 b3 b4; decide
  · revert b0 b1 b2 b3 b4 b5; decide
  · revert b0 b1 b2 b3 b4 b5 b6; decide
  · revert b0 b1 b2 b3 b4 b5 b6 b7; decide
  · simp only [List.length_cons] at h; omega

theorem length_unpackBits (bs : List Nat) :
    (unpackBits bs).length = 8 * bs.length := by
  induction bs with
  | nil => rfl
  | cons b t ih =>
    simp only [unpackBits, List.length_append, List.length_cons, ih, byteToBits,
      List.length_map, List.length_range]
    ring

theorem length_le_unpack_pack (fuel : Nat) :
    ∀ (xs : List Bool), xs.length ≤ fuel →
      xs.length ≤ (unpackBits (packBits xs)).length := by
  induction fuel with
  | zero =>
    intro xs h
    omega
  | succ n ih =>
    intro xs h
    cases xs with
    | nil => simp [packBits, unpackBits]
    | cons b rest =>
      rw [packBits]
      simp only [unpackBits, List.length_append, List.length_cons]
      have hrec := ih (rest.drop 7) (by simp only [List.length_drop]; simp only [List.length_cons] at h; omega)
      have hbyte : (byteToBits (bitsToByte (b :: rest.take 7))).length = 8 := by
        simp [byteToBits]
      simp only [List.length_drop] at hrec
      omega

theorem take_unpack_pack (fuel : Nat) :
    ∀ (xs : List Bool), xs.length ≤ fuel →
      (unpackBits (packBits xs)).take xs.length = xs := by
  induction fuel with
  | zero =>
    intro xs h
    have : xs = [] := List.length_eq_zero.mp (by omega)
    subst this
    rfl
  | succ n ih =>
    intro xs h
    cases xs with
    | nil => rfl
    | cons b rest =>
      rw [packBits]
      simp only [unpackBits]
      have hchunklen : (b :: rest.take 7).length = 1 + min 7 rest.length := by
        simp only [List.length_cons, List.length_take]
        omega
      have hle8 : (b :: rest.take 7).length ≤ 8 := by omega
      rw [byteToBits_bitsToByte _ hle8]
      rw [List.take_append_eq_append_take]
      rcases le_or_lt rest.length 7 with hsmall | hbig
      · have htake : rest.take 7 = rest := List.take_of_length_le (by omega)
        have hdrop : rest.drop 7 = [] := List.drop_eq_nil_of_le (by omega)
        rw [htake, hdrop]
        have hA : List.take (b :: rest).length
            ((b :: rest) ++ List.replicate (8 - (b :: rest).length) false) = b :: rest :=
          List.take_left' rfl
        rw [hA]
        simp [packBits, unpackBits]
      · have hchunk8 : (b :: rest.take 7).length = 8 := by omega
        have hrec := ih (rest.drop 7) (by
          simp only [List.length_drop]
          simp only [List.length_cons] at h
          omega)
        have hld : (rest.drop 7).length = rest.length - 7 := by
          simp only [List.length_drop]
        rw [hld] at hrec
        have hfull : List.take (b :: rest).length
            (b :: rest.take 7 ++ List.replicate (8 - (b :: rest.take 7).length) false)
            = b :: rest.take 7 ++ List.replicate (8 - (b :: rest.take 7).length) false := by
          apply List.take_of_length_le
          simp only [List.length_append, List.length_cons, List.length_take,
            List.length_replicate]
          omega
        rw [hfull, hchunk8]
        simp only [Nat.sub_self, List.replicate_zero, List.append_nil]
        have h3 : (b :: rest).length - (b :: rest.take 7).length = rest.length - 7 := by
          simp only [List.length_cons, List.length_take]
          omega
        rw [h3, hrec]
        simp [List.take_append_drop]

theorem takeWhile_append_zero (l1 : List Nat) (h : ∀ x ∈ l1, x ≠ 0) (l2 : List Nat) :
    ((l1 ++ 0 :: l2).takeWhile (fun b => b != 0)) = l1 := by
  induction l1 with
  | nil => simp [List.takeWhile_cons]
  | cons a t ih =>
    have ha : a ≠ 0 := h a (List.mem_cons_self a t)
    simp only [List.cons_append, List.takeWhile_cons]
    simp only [bne_iff_ne, ne_eq, ha, not_false_iff, decide_True, if_true]
    rw [ih (fun x hx => h x (List.mem_cons_of_mem a hx))]

theorem drop_append_cons (l1 : List Nat) (x : Nat) (l2 : List Nat) :
    (l1 ++ x :: l2).drop (l1.length + 1) = l2 := by
  induction l1 with
  | nil => rfl
  | cons a t ih => simp [ih]

theorem decodeStrArray_encodeStrArray (ss : List String)
    (h : ∀ s ∈ ss, nulFree s = true) :
    decodeStrArray (encodeStrArray ss) = some ss := by
  induction ss with
  | nil =>
    rw [show encodeStrArray [] = [] from rfl, decodeStrArray]
    simp
  | cons s ss ih =>
    have hnf : ∀ x ∈ strBytes s, x ≠ 0 := by
      intro x hx
      simp only [strBytes, List.mem_map] at hx
      obtain ⟨c, hc, hcx⟩ := hx
      have := h s (List.mem_cons_self s ss)
      simp only [nulFree, List.all_eq_true] at this
      have := this c hc
      simp only [bne_iff_ne, ne_eq] at this
      omega
    have hne : encodeStrArray (s :: ss) ≠ [] := by
      simp only [encodeStrArray]
      intro hcontra
      have := congrArg List.length hcontra
      simp at this
    have htw : ((strBytes s ++ 0 :: encodeStrArray ss).takeWhile (fun b => b != 0))
        = strBytes s := takeWhile_append_zero (strBytes s) hnf (encodeStrArray ss)
    rw [decodeStrArray]
    simp only [encodeStrArray] at hne ⊢
    rw [dif_neg hne]
    rw [dif_pos (by
      rw [htw]
      simp)]
    rw [htw, drop_append_cons]
    rw [ih (fun x hx => h x (List.mem_cons_of_mem s hx))]
    have hs : String.mk ((strBytes s).map Char.ofNat) = s := by
      simp only [strBytes, List.map_map]
      have : (Char.ofNat ∘ Char.toNat) = id := by
        funext c
        exact Char.ofNat_toNat c
      rw [this, List.map_id]
    rw [hs]
    rfl

theorem ofTag_tag (d : DataType) : DataType.ofTag d.tag = some d := by
  cases d <;> rfl

theorem map_tcDecode_tcEncode (w : Nat) (xs : List Int)
    (hb : ∀ i ∈ xs, -(2 : Int) ^ (w - 1) ≤ i ∧ i < 2 ^ (w - 1)) (hw : 1 ≤ w) :
    (xs.map (tcEncode w)).map (tcDecode w) = xs := by
  induction xs with
  | nil => rfl
  | cons x t ih =>
    have hx := hb x (List.mem_cons_self x t)
    simp only [List.map_cons, List.cons.injEq]
    exact ⟨tcDecode_tcEncode w x hx.1 hx.2 hw,
      ih (fun i hi => hb i (List.mem_cons_of_mem x hi))⟩

theorem map_cast_toNat (xs : List Int) (hb : ∀ i ∈ xs, 0 ≤ i) :
    (xs.map Int.toNat).map (fun n : Nat => (n : Int)) = xs := by
  induction xs with
  | nil => rfl
  | cons x t ih =>
    have hx := hb x (List.mem_cons_self x t)
    simp only [List.map_cons, List.cons.injEq]
    exact ⟨Int.toNat_of_nonneg hx, ih (fun i hi => hb i (List.mem_cons_of_mem x hi))⟩

set_option maxHeartbeats 3000000 in
theorem decodeWireValue_encodeWireValue (off : Int) (d : DataType) (v : MetricValue)
    (hval : validValue off d v = true) (hnul : valueNulFree v = true) :
    ∃ wv, encodeWireValue off d v = some wv ∧
      decodeWireValue d wv = some (normalizeValue off v) := by
  cases d <;> cases v <;>
    (try exact Bool.noConfusion hval) <;>
    (try exact ⟨_, rfl, rfl⟩)
  -- signed integer scalars
  case int8.int i | int16.int i | int32.int i | int64.int i =>
    have hb := of_decide_eq_true hval
    refine ⟨_, rfl, ?_⟩
    simp only [decodeWireValue, normalizeValue]
    rw [tcDecode_tcEncode] <;> (norm_num at hb ⊢) <;> omega
  -- unsigned integer scalars
  case uint8.int i | uint16.int i | uint32.int i | uint64.int i =>
    have hb := of_decide_eq_true hval
    refine ⟨_, rfl, ?_⟩
    simp only [decodeWireValue, normalizeValue]
    rw [Int.toNat_of_nonneg hb.1]
  -- datetime scalar
  case datetime.datetime dt =>
    have hb := of_decide_eq_true hval
    refine ⟨_, rfl, ?_⟩
    simp only [decodeWireValue, normalizeValue]
    rw [tcDecode_tcEncode] <;> (norm_num at hb ⊢) <;> omega
  -- signed integer arrays
  case int8Array.intArray xs | int16Array.intArray xs
      | int32Array.intArray xs | int64Array.intArray xs =>
    have hb := fun i hi => of_decide_eq_true (List.all_eq_true.mp hval i hi)
    refine ⟨_, rfl, ?_⟩
    simp only [decodeWireValue, normalizeValue]
    rw [decodeNatArray_encodeNatArray _ _ (by norm_num) (by
      intro x hx
      simp only [List.mem_map] at hx
      obtain ⟨i, _, rfl⟩ := hx
      calc tcEncode _ i < 2 ^ _ := tcEncode_lt _ i
        _ ≤ 2 ^ (8 * _) := by norm_num)]
    simp only [Option.map_some']
    rw [map_tcDecode_tcEncode _ _ (by
      intro i hi
      have hbi := hb i hi
      norm_num at hbi ⊢
      omega) (by norm_num)]
  -- unsigned integer arrays
  case uint8Array.intArray xs | uint16Array.intArray xs
      | uint32Array.intArray xs | uint64Array.intArray xs =>
    have hb := fun i hi => of_decide_eq_true (List.all_eq_true.mp hval i hi)
    refine ⟨_, rfl, ?_⟩
    simp only [decodeWireValue, normalizeValue]
    rw [decodeNatArray_encodeNatArray _ _ (by norm_num) (by
      intro x hx
      simp only [List.mem_map] at hx
      obtain ⟨i, hi, rfl⟩ := hx
      have hbi := hb i hi
      norm_num at hbi ⊢
      omega)]
    simp only [Option.map_some']
    rw [map_cast_toNat _ (fun i hi => (hb i hi).1)]
  -- float and double arrays
  case floatArray.fltArray xs | doubleArray.dblArray xs =>
    have hb := fun i hi => of_decide_eq_true (List.all_eq_true.mp hval i hi)
    refine ⟨_, rfl, ?_⟩
    simp only [decodeWireValue, normalizeValue]
    rw [decodeNatArray_encodeNatArray _ _ (by norm_num) (by
      intro x hx
      have hbi := hb x hx
      norm_num at hbi ⊢
      omega)]
    rfl
  -- boolean array
  case booleanArray.booleanArray xs =>
    have hb := of_decide_eq_true hval
    refine ⟨_, rfl, ?_⟩
    have h4 : (natToLE 4 xs.length).length = 4 := length_natToLE 4 xs.length
    simp only [decodeWireValue, normalizeValue]
    rw [List.take_left' h4, List.drop_left' h4]
    have hlen : ¬ ((natToLE 4 xs.length ++ packBits xs).length < 4) := by
      simp only [List.length_append, h4]
      omega
    rw [if_neg hlen]
    rw [leToNat_natToLE 4 xs.length (by norm_num at hb ⊢; omega)]
    have hle := length_le_unpack_pack xs.length xs (le_refl _)
    rw [if_pos hle]
    rw [take_unpack_pack xs.length xs (le_refl _)]
  -- string array
  case stringArray.strArray xs =>
    have hn := fun s hs => List.all_eq_true.mp hnul s hs
    refine ⟨_, rfl, ?_⟩
    simp only [decodeWireValue, normalizeValue]
    rw [decodeStrArray_encodeStrArray xs hn]
    rfl
  -- datetime array
  case datetimeArray.datetimeArray xs =>
    have hb := fun dt hdt => of_decide_eq_true (List.all_eq_true.mp hval dt hdt)
    refine ⟨_, rfl, ?_⟩
    simp only [decodeWireValue, normalizeValue]
    rw [decodeNatArray_encodeNatArray _ _ (by norm_num) (by
      intro x hx
      simp only [List.mem_map] at hx
      obtain ⟨dt, _, rfl⟩ := hx
      calc tcEncode _ (utcMs off dt) < 2 ^ _ := tcEncode_lt _ _
        _ ≤ 2 ^ (8 * _) := by norm_num)]
    simp only [Option.map_some', List.map_map]
    congr 1
    congr 1
    apply List.map_congr_left
    intro dt hdt
    have hbi := hb dt hdt
    simp only [Function.comp_apply]
    congr 1
    rw [tcDecode_tcEncode] <;> (norm_num at hbi ⊢) <;> omega

theorem decodeMetric_encodeMetric (off : Int) (m : Metric)
    (hv : validMetric off m = true) (hnul : metricNulFree m = true) :
    (encodeMetric off m).bind decodeMetric = .ok (normalizeMetric off m) := by
  obtain ⟨nm, ts, d, mv, hist, trans, md⟩ := m
  simp only [validMetric, Bool.and_eq_true] at hv
  have hsup : d.supported = true := hv.1.1
  cases mv with
  | none =>
    simp [encodeMetric, decodeMetric, Except.bind, hsup, ofTag_tag, normalizeMetric]
  | some v =>
    have hval : validValue off d v = true := hv.2
    have hnul2 : valueNulFree v = true := hnul
    obtain ⟨wv, hew, hdw⟩ := decodeWireValue_encodeWireValue off d v hval hnul2
    simp [encodeMetric, decodeMetric, Except.bind, hsup, hval, hew, hdw, ofTag_tag,
      normalizeMetric]

/-- The claim's round trip fails on a STRING_ARRAY whose element contains an
embedded NUL character: the NUL-terminated wire format cannot represent it,
so decoding returns the split strings instead of the original value. -/
theorem C1_counterexample :
    validMetric 0 ⟨some "m", 0, .stringArray,
        some (.strArray ["a\x00b"]), false, false, none⟩ = true ∧
      (encodeMetric 0 ⟨some "m", 0, .stringArray,
          some (.strArray ["a\x00b"]), false, false, none⟩).bind decodeMetric ≠
        Except.ok (normalizeMetric 0 ⟨some "m", 0, .stringArray,
          some (.strArray ["a\x00b"]), false, false, none⟩) := by
  have hdec : decodeStrArray [97, 0, 98, 0] = some ["a", "b"] := by
    rw [decodeStrArray]
    norm_num [List.takeWhile_cons]
    rw [decodeStrArray]
    norm_num [List.takeWhile_cons]
    rw [decodeStrArray]
    norm_num
    decide
  constructor
  · decide
  · have henc : encodeMetric 0 ⟨some "m", 0, .stringArray,
        some (.strArray ["a\x00b"]), false, false, none⟩ =
        Except.ok ⟨some "m", 0, 33, false, false, false, none,
          some (.bytesVal [97, 0, 98, 0])⟩ := by decide
    rw [henc]
    simp only [Except.bind]
    simp only [decodeMetric, DataType.ofTag, decodeWireValue, hdec]
    decide

/-- C1 (amended: STRING_ARRAY elements must additionally be free of
embedded NUL characters): for every admissible metric of a supported
datatype whose string-array elements contain no NUL, decoding the encoding
returns the metric up to datetime timezone normalization. -/
theorem C1_metric_roundtrip (off : Int) (m : Metric)
    (hv : validMetric off m = true) (hnul : metricNulFree m = true) :
    (encodeMetric off m).bind decodeMetric = Except.ok (normalizeMetric off m) :=
  decodeMetric_encodeMetric off m hv hnul

/-- Witness for `C1_metric_roundtrip` at a concrete naive-datetime metric
with a 1-hour local offset. -/
theorem C1_metric_roundtrip_witness :
    validMetric 3600000 ⟨some "dt", 5, .datetime,
        some (.datetime ⟨1000, none⟩), false, false, none⟩ = true ∧
      (encodeMetric 3600000 ⟨some "dt", 5, .datetime,
          some (.datetime ⟨1000, none⟩), false, false, none⟩).bind decodeMetric =
        Except.ok (normalizeMetric 3600000 ⟨some "dt", 5, .datetime,
          some (.datetime ⟨1000, none⟩), false, false, none⟩) :=
  ⟨by decide, C1_metric_roundtrip 3600000 _ (by decide) (by decide)⟩

/-- C5: encoding a UINT8 metric with value 256 fails with InvalidMetric;
each integer datatype admits exactly the integers within its bounds, and
encoding any out-of-range integer fails with InvalidMetric. -/
theorem C5_integer_range :
    (encodeMetric 0 ⟨some "m", 0, .uint8, some (.int 256), false, false, none⟩ =
      Except.error SPError.invalidMetric) ∧
    ∀ (d : DataType) (lo hi : Int), intBounds d = some (lo, hi) →
      ∀ (i : Int),
        (validValue 0 d (.int i) = true ↔ (lo ≤ i ∧ i ≤ hi)) ∧
        (∀ (nm : Option String) (ts : Int) (hist trans : Bool) (md : Option MetaData),
          ¬ (lo ≤ i ∧ i ≤ hi) →
            encodeMetric 0 ⟨nm, ts, d, some (.int i), hist, trans, md⟩ =
              Except.error SPError.invalidMetric) := by
  refine ⟨by decide, ?_⟩
  intro d lo hi hb i
  cases d <;> (try exact Option.noConfusion hb) <;>
    (injection hb with hb2) <;> (injection hb2 with h1 h2) <;>
    (subst h1; subst h2) <;> constructor <;>
    first
      | (exact Iff.intro
          (fun h => by
            have h2 := of_decide_eq_true h
            norm_num at h2 ⊢
            omega)
          (fun h => decide_eq_true (by norm_num at h ⊢; omega)))
      | (intro nm ts hist trans md hr
         norm_num at hr
         simp only [encodeMetric]
         rw [if_neg (by decide)]
         split_ifs with hc <;>
           first
             | rfl
             | (exfalso
                have hc2 := of_decide_eq_true hc
                norm_num at hc2
                omega))

/-- Witness for `C5_integer_range` at the UINT8 datatype and the
out-of-range value 300. -/
theorem C5_integer_range_witness :
    ¬ ((0 : Int) ≤ 300 ∧ (300 : Int) ≤ 2 ^ 8 - 1) ∧
      encodeMetric 0 ⟨some "m", 0, .uint8, some (.int 300), false, false, none⟩ =
        Except.error SPError.invalidMetric :=
  ⟨by norm_num,
    (C5_integer_range.2 .uint8 0 (2 ^ 8 - 1) rfl 300).2
      (some "m") 0 false false none (by norm_num)⟩

/-- C6: for every deliberately-unsupported datatype, encoding a metric of
that datatype fails with NotImplementedDatatype, and decoding any wire
metric carrying that datatype's tag fails with the same error. -/
theorem C6_not_implemented (d : DataType) (hd : d.supported = false) :
    (∀ (nm : Option String) (ts : Int) (v : Option MetricValue)
        (hist trans : Bool) (md : Option MetaData),
      encodeMetric 0 ⟨nm, ts, d, v, hist, trans, md⟩ =
        Except.error SPError.notImplementedDatatype) ∧
    (∀ w : WireMetric, w.datatype = d.tag →
      decodeMetric w = Except.error SPError.notImplementedDatatype) := by
  constructor
  · intro nm ts v hist trans md
    simp [encodeMetric, hd]
  · intro w hw
    simp [decodeMetric, hw, ofTag_tag, hd]

/-- Witness for `C6_not_implemented` at the Template datatype. -/
theorem C6_not_implemented_witness :
    DataType.template.supported = false ∧
      encodeMetric 0 ⟨some "t", 0, .template, none, false, false, none⟩ =
        Except.error SPError.notImplementedDatatype ∧
      decodeMetric ⟨some "t", 0, 19, false, false, false, none, none⟩ =
        Except.error SPError.notImplementedDatatype :=
  ⟨rfl, (C6_not_implemented .template rfl).1 (some "t") 0 none false false none,
    (C6_not_implemented .template rfl).2 ⟨some "t", 0, 19, false, false, false, none, none⟩ rfl⟩

theorem packBits_nil : packBits ([] : List Bool) = [] := by
  rw [packBits.eq_def]

theorem packBits_cons (b : Bool) (bs : List Bool) :
    packBits (b :: bs) = bitsToByte (b :: bs.take 7) :: packBits (bs.drop 7) := by
  rw [packBits.eq_def]

/-- C9: BOOLEAN_ARRAY encodes as a 4-byte little-endian element count
followed by the elements packed one bit each, LSB-first within each byte;
on the spec's example the bytes are 09 00 00 00 0D 01, and decoding either
that example or any encoded array returns the original sequence. -/
theorem C9_boolean_array :
    (∀ xs : List Bool, xs.length < 2 ^ 32 →
      decodeWireValue .booleanArray
          (.bytesVal (natToLE 4 xs.length ++ packBits xs)) =
        some (.booleanArray xs)) ∧
    encodeWireValue 0 .booleanArray
        (.booleanArray [true, false, true, true, false, false, false, false, true]) =
      some (.bytesVal [9, 0, 0, 0, 13, 1]) ∧
    decodeWireValue .booleanArray (.bytesVal [9, 0, 0, 0, 13, 1]) =
      some (.booleanArray [true, false, true, true, false, false, false, false, true]) := by
  refine ⟨?_, ?_, by decide⟩
  · intro xs hxs
    have h4 : (natToLE 4 xs.length).length = 4 := length_natToLE 4 xs.length
    simp only [decodeWireValue]
    rw [List.take_left' h4, List.drop_left' h4]
    have hlen : ¬ ((natToLE 4 xs.length ++ packBits xs).length < 4) := by
      simp only [List.length_append, h4]
      omega
    rw [if_neg hlen]
    rw [leToNat_natToLE 4 xs.length (by norm_num at hxs ⊢; omega)]
    have hle := length_le_unpack_pack xs.length xs (le_refl _)
    rw [if_pos hle]
    rw [take_unpack_pack xs.length xs (le_refl _)]
  · have e : packBits [true, false, true, true, false, false, false, false, true] =
        [13, 1] := by
      rw [packBits_cons]
      rw [show List.drop 7 [false, true, true, false, false, false, false, true] =
        [true] from rfl]
      rw [packBits_cons]
      rw [show List.drop 7 ([] : List Bool) = [] from rfl, packBits_nil]
      decide
    show some (WireValue.bytesVal
        (natToLE 4 (List.length [true, false, true, true, false, false, false, false, true]) ++
          packBits [true, false, true, true, false, false, false, false, true])) =
      some (.bytesVal [9, 0, 0, 0, 13, 1])
    rw [e]
    decide

/-- Witness for the universally-quantified part of `C9_boolean_array`. -/
theorem C9_boolean_array_witness :
    decodeWireValue .booleanArray
        (.bytesVal (natToLE 4 [true, true, false].length ++ packBits [true, true, false])) =
      some (.booleanArray [true, true, false]) :=
  C9_boolean_array.1 [true, true, false] (by norm_num)

set_option maxHeartbeats 1000000 in
/-- C10: DATETIME encoding converts the value to UTC milliseconds — a
naive value is interpreted at the local offset, an aware value converted
from its own zone — and decoding returns a UTC-aware datetime (offset 0)
holding those UTC milliseconds. -/
theorem C10_datetime_utc (off : Int) (dt : PyDateTime)
    (nm : Option String) (ts : Int) (hist trans : Bool) (md : Option MetaData)
    (hr : int64Range (utcMs off dt) = true) :
    (encodeMetric off ⟨nm, ts, .datetime, some (.datetime dt), hist, trans, md⟩ =
      Except.ok ⟨nm, ts, DataType.datetime.tag, false, hist, trans, md,
        some (.longVal (tcEncode 64 (utcMs off dt)))⟩) ∧
    ((encodeMetric off ⟨nm, ts, .datetime, some (.datetime dt), hist, trans, md⟩).bind
        decodeMetric =
      Except.ok ⟨nm, ts, .datetime, some (.datetime ⟨utcMs off dt, some 0⟩),
        hist, trans, md⟩) ∧
    (dt.tzOffsetMs = none → utcMs off dt = dt.ms - off) ∧
    (∀ z, dt.tzOffsetMs = some z → utcMs off dt = dt.ms - z) := by
  have hv : validValue off .datetime (.datetime dt) = true := hr
  have hdec := of_decide_eq_true hr
  have henc : encodeMetric off ⟨nm, ts, .datetime, some (.datetime dt), hist, trans, md⟩ =
      Except.ok ⟨nm, ts, DataType.datetime.tag, false, hist, trans, md,
        some (.longVal (tcEncode 64 (utcMs off dt)))⟩ := by
    simp only [encodeMetric]
    rw [if_neg (by decide), if_pos hv]
    rfl
  refine ⟨henc, ?_, ?_, ?_⟩
  · rw [henc]
    show (Except.ok (⟨nm, ts, DataType.datetime,
        some (.datetime ⟨tcDecode 64 (tcEncode 64 (utcMs off dt)), some 0⟩),
        hist, trans, md⟩ : Metric) : Except SPError Metric) =
      Except.ok ⟨nm, ts, .datetime, some (.datetime ⟨utcMs off dt, some 0⟩),
        hist, trans, md⟩
    rw [tcDecode_tcEncode] <;> (norm_num at hdec ⊢) <;> omega
  · intro h
    simp [utcMs, h]
  · intro z h
    simp [utcMs, h]

/-- Witness for `C10_datetime_utc` at a concrete naive datetime and
offset. -/
theorem C10_datetime_utc_witness :
    int64Range (utcMs 3600000 ⟨1000, none⟩) = true ∧
      ((encodeMetric 3600000 ⟨some "dt", 5, .datetime,
          some (.datetime ⟨1000, none⟩), false, false, none⟩).bind decodeMetric =
        Except.ok ⟨some "dt", 5, .datetime,
          some (.datetime ⟨utcMs 3600000 ⟨1000, none⟩, some 0⟩), false, false, none⟩) :=
  ⟨by decide,
    (C10_datetime_utc 3600000 ⟨1000, none⟩ (some "dt") 5 false false none (by decide)).2.1⟩

theorem splitSlash_ne_nil (l : List Char) : splitSlash l ≠ [] := by
  induction l with
  | nil => simp [splitSlash]
  | cons c cs ih =>
    simp only [splitSlash]
    split
    · simp
    · split <;> simp

theorem joinSlash_splitSlash (l : List Char) : joinSlash (splitSlash l) = l := by
  induction l with
  | nil => rfl
  | cons c cs ih =>
    simp only [splitSlash]
    by_cases hc : c = '/'
    · rw [if_pos hc]
      cases hsp : splitSlash cs with
      | nil => exact absurd hsp (splitSlash_ne_nil cs)
      | cons r rs =>
        rw [hsp] at ih
        subst hc
        simpa [joinSlash] using ih
    · rw [if_neg hc]
      cases hsp : splitSlash cs with
      | nil => exact absurd hsp (splitSlash_ne_nil cs)
      | cons g gs =>
        rw [hsp] at ih
        cases gs with
        | nil =>
          simp only [joinSlash] at ih ⊢
          rw [ih]
        | cons g2 gs2 =>
          simp only [joinSlash] at ih ⊢
          simp [ih]

theorem splitSlash_single (l : List Char) (h : '/' ∉ l) : splitSlash l = [l] := by
  induction l with
  | nil => rfl
  | cons c cs ih =>
    have hc : ¬ (c = '/') := fun he => h (he ▸ List.mem_cons_self c cs)
    simp only [splitSlash, if_neg hc]
    rw [ih (fun hm => h (List.mem_cons_of_mem c hm))]

theorem splitSlash_join_cons (g : List Char) (h : '/' ∉ g) (rest : List Char) :
    splitSlash (g ++ '/' :: rest) = g :: splitSlash rest := by
  induction g with
  | nil => simp [splitSlash]
  | cons a g2 ih =>
    have ha : ¬ (a = '/') := fun he => h (he ▸ List.mem_cons_self a g2)
    show splitSlash (a :: (g2 ++ '/' :: rest)) = (a :: g2) :: splitSlash rest
    simp only [splitSlash, if_neg ha]
    rw [ih (fun hm => h (List.mem_cons_of_mem a hm))]

theorem splitSlash_joinSlash (comps : List (List Char)) (hne : comps ≠ [])
    (h : ∀ c ∈ comps, '/' ∉ c) :
    splitSlash (joinSlash comps) = comps := by
  induction comps with
  | nil => exact absurd rfl hne
  | cons g rest ih =>
    cases rest with
    | nil =>
      simp only [joinSlash]
      exact splitSlash_single g (h g (List.mem_cons_self g []))
    | cons r rs =>
      rw [show joinSlash (g :: r :: rs) = g ++ '/' :: joinSlash (r :: rs) from rfl]
      rw [splitSlash_join_cons g (h g (List.mem_cons_self g (r :: rs))) (joinSlash (r :: rs))]
      rw [ih (by simp) (fun c hc => h c (List.mem_cons_of_mem g hc))]

theorem string_data_inj (s t : String) (h : s.data = t.data) : s = t := by
  cases s
  cases t
  exact congrArg String.mk h

theorem plainComp_no_slash (s : String) (h : plainComp s = true) : '/' ∉ s.data := by
  simp only [plainComp, Bool.and_eq_true, List.all_eq_true] at h
  intro hm
  have := h.2 '/' hm
  simp at this

theorem subComp_no_slash (s : String) (h : subComp s = true) : '/' ∉ s.data := by
  simp only [subComp, Bool.or_eq_true] at h
  rcases h with (h | h) | h
  · exact plainComp_no_slash s h
  · simp only [decide_eq_true_eq] at h
    subst h
    decide
  · simp only [decide_eq_true_eq] at h
    subst h
    decide

theorem subCompNT_no_slash (s : String) (h : subCompNT s = true) : '/' ∉ s.data := by
  simp only [subCompNT, Bool.or_eq_true] at h
  rcases h with h | h
  · exact plainComp_no_slash s h
  · simp only [decide_eq_true_eq] at h
    subst h
    decide

theorem mtwStr_no_slash (mtw : MTW) : '/' ∉ mtw.str.data := by
  cases mtw with
  | plus => decide
  | mt m => cases m <;> decide

theorem mtwOfStr_mtwStr (mtw : MTW) : MTW.ofStr mtw.str = some mtw := by
  cases mtw with
  | plus => rfl
  | mt m => cases m <;> rfl

theorem mtwStr_of_ofStr (s : String) (mtw : MTW) (h : MTW.ofStr s = some mtw) :
    mtw.str = s := by
  unfold MTW.ofStr at h
  split_ifs at h with h1
  · injection h with h2
    subst h2
    rw [h1]
    rfl
  · unfold MessageType.ofStr at h
    split_ifs at h with g1 g2 g3 g4 g5 g6 g7 g8 g9 <;>
      (try (injection h with h2; subst h2)) <;>
      simp_all [MTW.str, MessageType.str]

theorem topicParse_topicStr (t : Topic) (hv : validTopic t = true) :
    Topic.parse (Topic.str t) = Except.ok t := by
  cases t with
  | node g mtw e =>
    simp only [validTopic, Bool.and_eq_true] at hv
    obtain ⟨⟨hg, hmt⟩, he⟩ := hv
    unfold Topic.parse
    rw [show (Topic.str (.node g mtw e)).data =
      joinSlash ["spBv1.0".data, g.data, mtw.str.data, e.data] from rfl]
    rw [splitSlash_joinSlash _ (by simp) (by
      intro c hc
      simp only [List.mem_cons, List.not_mem_nil, or_false] at hc
      rcases hc with rfl | rfl | rfl | rfl
      · decide
      · exact subCompNT_no_slash g hg
      · exact mtwStr_no_slash mtw
      · exact subComp_no_slash e he)]
    simp only [List.map_cons, List.map_nil]
    simp only [show ∀ s : String, String.mk s.data = s from fun s => rfl]
    simp [mtwOfStr_mtwStr, hg, hmt, he]
  | device g mtw e d =>
    simp only [validTopic, Bool.and_eq_true] at hv
    obtain ⟨⟨⟨hg, hmt⟩, he⟩, hd⟩ := hv
    unfold Topic.parse
    rw [show (Topic.str (.device g mtw e d)).data =
      joinSlash ["spBv1.0".data, g.data, mtw.str.data, e.data, d.data] from rfl]
    rw [splitSlash_joinSlash _ (by simp) (by
      intro c hc
      simp only [List.mem_cons, List.not_mem_nil, or_false] at hc
      rcases hc with rfl | rfl | rfl | rfl | rfl
      · decide
      · exact subCompNT_no_slash g hg
      · exact mtwStr_no_slash mtw
      · exact subCompNT_no_slash e he
      · exact subComp_no_slash d hd)]
    simp only [List.map_cons, List.map_nil]
    simp only [show ∀ s : String, String.mk s.data = s from fun s => rfl]
    simp [mtwOfStr_mtwStr, hg, hmt, he, hd]
  | stateTopic h =>
    simp only [validTopic] at hv
    unfold Topic.parse
    rw [show (Topic.str (.stateTopic h)).data =
      joinSlash ["spBv1.0".data, "STATE".data, h.data] from rfl]
    rw [splitSlash_joinSlash _ (by simp) (by
      intro c hc
      simp only [List.mem_cons, List.not_mem_nil, or_false] at hc
      rcases hc with rfl | rfl | rfl
      · decide
      · decide
      · exact subComp_no_slash h hv)]
    simp only [List.map_cons, List.map_nil]
    simp only [show ∀ s : String, String.mk s.data = s from fun s => rfl]
    simp [hv]

theorem map_data_map_mk (xs : List (List Char)) :
    (xs.map String.mk).map String.data = xs := by
  induction xs with
  | nil => rfl
  | cons a t ih => simp only [List.map_cons, ih]

theorem topicStr_topicParse (s : String) (t : Topic)
    (hp : Topic.parse s = Except.ok t) : Topic.str t = s := by
  have hjoin := joinSlash_splitSlash s.data
  unfold Topic.parse at hp
  split at hp
  · rename_i ns st h heq
    split_ifs at hp with hcond
    · obtain ⟨hns, hst, hh⟩ := hcond
      injection hp with hpt
      subst hpt
      subst hns
      subst hst
      have hsplit : splitSlash s.data = ["spBv1.0".data, "STATE".data, h.data] := by
        have := congrArg (List.map String.data) heq
        rw [map_data_map_mk] at this
        simpa using this
      apply string_data_inj
      rw [show (Topic.str (.stateTopic h)).data =
        joinSlash ["spBv1.0".data, "STATE".data, h.data] from rfl]
      rw [← hsplit, hjoin]
  · rename_i ns g mts e heq
    split at hp
    · rename_i mtw heq2
      split_ifs at hp with hcond
      · obtain ⟨hns, hg, hmt, he⟩ := hcond
        injection hp with hpt
        subst hpt
        subst hns
        have hmts : mtw.str = mts := mtwStr_of_ofStr mts mtw heq2
        have hsplit : splitSlash s.data =
            ["spBv1.0".data, g.data, mts.data, e.data] := by
          have := congrArg (List.map String.data) heq
          rw [map_data_map_mk] at this
          simpa using this
        apply string_data_inj
        rw [show (Topic.str (.node g mtw e)).data =
          joinSlash ["spBv1.0".data, g.data, mtw.str.data, e.data] from rfl]
        rw [hmts, ← hsplit, hjoin]
    · exact Except.noConfusion hp
  · rename_i ns g mts e d heq
    split at hp
    · rename_i mtw heq2
      split_ifs at hp with hcond
      · obtain ⟨hns, hg, hmt, he, hd⟩ := hcond
        injection hp with hpt
        subst hpt
        subst hns
        have hmts : mtw.str = mts := mtwStr_of_ofStr mts mtw heq2
        have hsplit : splitSlash s.data =
            ["spBv1.0".data, g.data, mts.data, e.data, d.data] := by
          have := congrArg (List.map String.data) heq
          rw [map_data_map_mk] at this
          simpa using this
        apply string_data_inj
        rw [show (Topic.str (.device g mtw e d)).data =
          joinSlash ["spBv1.0".data, g.data, mtw.str.data, e.data, d.data] from rfl]
        rw [hmts, ← hsplit, hjoin]
    · exact Except.noConfusion hp
  · exact Except.noConfusion hp

/-- C4: topic parsing and stringification are mutually inverse — parsing
the string form of any valid topic returns that topic, and stringifying
the parse of any valid (non-wildcard) topic string returns that string. -/
theorem C4_topic_inverse :
    (∀ t : Topic, validTopic t = true → Topic.parse (Topic.str t) = Except.ok t) ∧
    (∀ (s : String) (t : Topic), Topic.parse s = Except.ok t →
      noWildcards s = true → Topic.str t = s) :=
  ⟨topicParse_topicStr, fun s t hp _ => topicStr_topicParse s t hp⟩

/-- Witness for `C4_topic_inverse` at a concrete device topic and a
concrete node topic string. -/
theorem C4_topic_inverse_witness :
    Topic.parse (Topic.str (.device "g" (.mt .ddata) "n" "dev1")) =
        Except.ok (.device "g" (.mt .ddata) "n" "dev1") ∧
      Topic.str (.node "g" (.mt .ndata) "n") = "spBv1.0/g/NDATA/n" :=
  ⟨C4_topic_inverse.1 (.device "g" (.mt .ddata) "n" "dev1") (by decide),
    C4_topic_inverse.2 "spBv1.0/g/NDATA/n" (.node "g" (.mt .ndata) "n")
      (by decide) (by decide)⟩

theorem seqCheck_append (e : Option Nat) (l1 l2 : List Event) :
    seqCheck e (l1 ++ l2) = (seqCheck e l1).bind (fun e2 => seqCheck e2 l2) := by
  induction l1 generalizing e with
  | nil => rfl
  | cons ev rest ih =>
    simp only [List.cons_append, seqCheck]
    cases hs : seqCheck1 e ev with
    | none => rfl
    | some e2 => simp [ih]

theorem seqCheck_hasSeq_cons (t : Topic) (mt : MessageType) (h1 : ¬ (mt = .nbirth))
    (h2 : mt.hasSeq = true) (s : Nat) (ms : List Metric) (rest : List Event) :
    seqCheck (some s) (Event.published t mt (some s) ms :: rest) =
      seqCheck (some ((s + 1) % 256)) rest := by
  simp [seqCheck, seqCheck1, h1, h2]

theorem birthDevices_seqCheck (nd : EdgeNode) (ds : List Device) (s : Nat)
    (hs : s < 256) :
    seqCheck (some s) (birthDevices nd s ds).1 =
        some (some (birthDevices nd s ds).2) ∧
      (birthDevices nd s ds).2 < 256 := by
  induction ds generalizing s with
  | nil => exact ⟨rfl, hs⟩
  | cons d ds ih =>
    simp only [birthDevices]
    rw [seqCheck_hasSeq_cons _ _ (by decide) (by decide)]
    exact ih ((s + 1) % 256) (Nat.mod_lt _ (by norm_num))

theorem deathDevices_seqCheck (nd : EdgeNode) (ds : List Device) (s : Nat)
    (hs : s < 256) :
    seqCheck (some s) (deathDevices nd s ds).1 =
        some (some (deathDevices nd s ds).2) ∧
      (deathDevices nd s ds).2 < 256 := by
  induction ds generalizing s with
  | nil => exact ⟨rfl, hs⟩
  | cons d ds ih =>
    simp only [deathDevices]
    rw [seqCheck_hasSeq_cons _ _ (by decide) (by decide)]
    exact ih ((s + 1) % 256) (Nat.mod_lt _ (by norm_num))

theorem seqCheck_step (nd : EdgeNode) (c : Cmd) (e : Option Nat)
    (h : seqInv nd e) :
    ∃ e2, seqCheck e (step nd c).events = some e2 ∧ seqInv (step nd c).node e2 := by
  cases c with
  | connect =>
    simp only [step]
    by_cases hc : nd.connected
    · rw [if_pos hc]
      exact ⟨e, rfl, h⟩
    · rw [if_neg hc]
      have hb := birthDevices_seqCheck nd nd.devices 1 (by norm_num)
      refine ⟨some (birthDevices nd 1 nd.devices).2, ?_, ?_⟩
      · rw [show seqCheck e (Event.willArmed nd.bdSeqCounter :: Event.mqttConnect ::
          Event.published (nodeTopic nd .nbirth) .nbirth (some 0)
            (bdSeqMetric nd.bdSeqCounter :: nd.birth_metrics) ::
          (birthDevices nd 1 nd.devices).1) =
          seqCheck (some 1) (birthDevices nd 1 nd.devices).1 by
            simp [seqCheck, seqCheck1]]
        exact hb.1
      · intro _
        exact ⟨rfl, hb.2⟩
  | update ms =>
    simp only [step]
    by_cases hc : nd.connected = false
    · rw [if_pos hc]
      exact ⟨e, rfl, h⟩
    · rw [if_neg hc]
      have hcc : nd.connected = true := by
        cases hcon : nd.connected
        · exact absurd hcon hc
        · rfl
      obtain ⟨he, hlt⟩ := h hcc
      by_cases hbm : inBirth nd.birth_metrics ms = false
      · rw [if_pos hbm]
        exact ⟨e, rfl, fun _ => ⟨he, hlt⟩⟩
      · rw [if_neg hbm]
        subst he
        refine ⟨some ((nd.seq + 1) % 256), ?_, ?_⟩
        · rw [show ([Event.published (nodeTopic nd .ndata) .ndata (some nd.seq) ms] :
              List Event) =
            Event.published (nodeTopic nd .ndata) .ndata (some nd.seq) ms :: [] from rfl]
          rw [seqCheck_hasSeq_cons _ _ (by decide) (by decide)]
          rfl
        · intro _
          exact ⟨rfl, Nat.mod_lt _ (by norm_num)⟩
  | updateDevice id ms =>
    simp only [step]
    by_cases hc : nd.connected = false
    · rw [if_pos hc]
      exact ⟨e, rfl, h⟩
    · rw [if_neg hc]
      have hcc : nd.connected = true := by
        cases hcon : nd.connected
        · exact absurd hcon hc
        · rfl
      obtain ⟨he, hlt⟩ := h hcc
      cases hf : findDevice nd.devices id with
      | none => exact ⟨e, rfl, h⟩
      | some d =>
        by_cases hbm : inBirth d.birth_metrics ms = false
        · simp only [hbm, if_true]
          exact ⟨e, rfl, h⟩
        · have hbt : inBirth d.birth_metrics ms = true := by
            cases h2 : inBirth d.birth_metrics ms
            · exact absurd h2 hbm
            · rfl
          simp only [hbt, Bool.true_eq_false, if_false]
          subst he
          refine ⟨some ((nd.seq + 1) % 256), ?_, ?_⟩
          · rw [show ([Event.published (deviceTopic nd .ddata id) .ddata
                (some nd.seq) ms] : List Event) =
              Event.published (deviceTopic nd .ddata id) .ddata
                (some nd.seq) ms :: [] from rfl]
            rw [seqCheck_hasSeq_cons _ _ (by decide) (by decide)]
            rfl
          · intro _
            exact ⟨rfl, Nat.mod_lt _ (by norm_num)⟩
  | register d =>
    simp only [step]
    cases hf : findDevice nd.devices d.device_id with
    | some _ => exact ⟨e, rfl, h⟩
    | none =>
      by_cases hc : nd.connected
      · simp only [hc, if_true]
        obtain ⟨he, hlt⟩ := h hc
        subst he
        refine ⟨some ((nd.seq + 1) % 256), ?_, ?_⟩
        · rw [show ([Event.published (deviceTopic nd .dbirth d.device_id) .dbirth
              (some nd.seq) d.birth_metrics] : List Event) =
            Event.published (deviceTopic nd .dbirth d.device_id) .dbirth
              (some nd.seq) d.birth_metrics :: [] from rfl]
          rw [seqCheck_hasSeq_cons _ _ (by decide) (by decide)]
          rfl
        · intro _
          exact ⟨rfl, Nat.mod_lt _ (by norm_num)⟩
      · have hcf : nd.connected = false := by
          cases h2 : nd.connected
          · rfl
          · exact absurd h2 hc
        simp only [hcf, Bool.false_eq_true, if_false]
        refine ⟨e, rfl, ?_⟩
        intro hcc
        simp at hcc
  | deregister id =>
    simp only [step]
    cases hf : findDevice nd.devices id with
    | none => exact ⟨e, rfl, h⟩
    | some d =>
      by_cases hc : nd.connected
      · simp only [hc, if_true]
        obtain ⟨he, hlt⟩ := h hc
        subst he
        refine ⟨some ((nd.seq + 1) % 256), ?_, ?_⟩
        · rw [show ([Event.published (deviceTopic nd .ddeath id) .ddeath
              (some nd.seq) []] : List Event) =
            Event.published (deviceTopic nd .ddeath id) .ddeath
              (some nd.seq) [] :: [] from rfl]
          rw [seqCheck_hasSeq_cons _ _ (by decide) (by decide)]
          rfl
        · intro _
          exact ⟨rfl, Nat.mod_lt _ (by norm_num)⟩
      · have hcf : nd.connected = false := by
          cases h2 : nd.connected
          · rfl
          · exact absurd h2 hc
        simp only [hcf, Bool.false_eq_true, if_false]
        refine ⟨e, rfl, ?_⟩
        intro hcc
        simp at hcc
  | disconnect =>
    simp only [step]
    by_cases hc : nd.connected = false
    · rw [if_pos hc]
      exact ⟨e, rfl, h⟩
    · rw [if_neg hc]
      have hcc : nd.connected = true := by
        cases hcon : nd.connected
        · exact absurd hcon hc
        · rfl
      obtain ⟨he, hlt⟩ := h hcc
      subst he
      have hd := deathDevices_seqCheck nd nd.devices nd.seq hlt
      refine ⟨some (deathDevices nd nd.seq nd.devices).2, ?_, ?_⟩
      · rw [seqCheck_append, hd.1]
        simp [seqCheck, seqCheck1, show MessageType.ndeath.hasSeq = false from rfl]
      · intro hcon
        simp at hcon
  | rebirth =>
    simp only [step]
    by_cases hc : nd.connected = false
    · rw [if_pos hc]
      exact ⟨e, rfl, h⟩
    · rw [if_neg hc]
      have hb := birthDevices_seqCheck nd nd.devices 1 (by norm_num)
      refine ⟨some (birthDevices nd 1 nd.devices).2, ?_, ?_⟩
      · rw [show seqCheck e (Event.published (nodeTopic nd .nbirth) .nbirth (some 0)
            (bdSeqMetric nd.sessionBdSeq :: nd.birth_metrics) ::
          (birthDevices nd 1 nd.devices).1) =
          seqCheck (some 1) (birthDevices nd 1 nd.devices).1 by
            simp [seqCheck, seqCheck1]]
        exact hb.1
      · intro _
        exact ⟨rfl, hb.2⟩

theorem seqCheck_run (nd : EdgeNode) (cs : List Cmd) (e : Option Nat)
    (h : seqInv nd e) :
    ∃ e2, seqCheck e (run nd cs).2 = some e2 ∧ seqInv (run nd cs).1 e2 := by
  induction cs generalizing nd e with
  | nil => exact ⟨e, rfl, h⟩
  | cons c cs ih =>
    simp only [run]
    obtain ⟨e2, h1, h2⟩ := seqCheck_step nd c e h
    obtain ⟨e3, h3, h4⟩ := ih (step nd c).node e2 h2
    refine ⟨e3, ?_, h4⟩
    rw [seqCheck_append, h1]
    simpa using h3

/-- C2: from a fresh edge node, every trace of public operations satisfies
the sequence discipline — each NBIRTH publishes seq 0, every pair of
consecutive sequence-numbered publishes (NDATA, DBIRTH, DDATA, DDEATH,
all sharing the node's single uint8 counter) steps by exactly 1 mod 256,
and NDEATH (and STATE) publishes carry no seq. -/
theorem C2_sequence_discipline (g n : String) (bm : List Metric) (cs : List Cmd) :
    (seqCheck none (run (mkEdgeNode g n bm) cs).2).isSome = true := by
  obtain ⟨e2, h1, _⟩ := seqCheck_run (mkEdgeNode g n bm) cs none (by
    intro hc
    simp [mkEdgeNode] at hc)
  rw [h1]
  rfl

theorem bdCheck_append (w : Option Nat) (l1 l2 : List Event) :
    bdCheck w (l1 ++ l2) = (bdCheck w l1).bind (fun w2 => bdCheck w2 l2) := by
  induction l1 generalizing w with
  | nil => rfl
  | cons ev rest ih =>
    simp only [List.cons_append, bdCheck]
    cases hs : bdCheck1 w ev with
    | none => rfl
    | some w2 => simp [ih]

theorem bdCheck1_skip (w : Option Nat) (t : Topic) (mt : MessageType)
    (sq : Option Nat) (ms : List Metric)
    (h : ¬ (mt = .nbirth ∨ mt = .ndeath)) :
    bdCheck1 w (Event.published t mt sq ms) = some w := by
  simp only [bdCheck1]
  rw [if_neg h]

theorem metricBd_bdSeq (bd : Nat) (ms : List Metric) :
    metricBd (bdSeqMetric bd :: ms) = some bd := by
  simp only [metricBd, bdSeqMetric, List.find?]
  norm_num

theorem bdCheck1_willArmed (w : Option Nat) (b : Nat) :
    bdCheck1 w (Event.willArmed b) = some (some b) := rfl

theorem bdCheck1_mqttConnect (w : Option Nat) :
    bdCheck1 w Event.mqttConnect = some w := rfl

theorem bdCheck1_mqttDisconnect (w : Option Nat) :
    bdCheck1 w Event.mqttDisconnect = some none := rfl

theorem bdCheck1_birth (t : Topic) (mt : MessageType)
    (sq : Option Nat) (bd : Nat) (ms : List Metric)
    (h : mt = .nbirth ∨ mt = .ndeath) :
    bdCheck1 (some bd) (Event.published t mt sq (bdSeqMetric bd :: ms)) =
      some (some bd) := by
  simp only [bdCheck1]
  rw [if_pos h, metricBd_bdSeq]
  simp

theorem birthDevices_bdCheck (nd : EdgeNode) (ds : List Device) (s : Nat)
    (w : Option Nat) :
    bdCheck w (birthDevices nd s ds).1 = some w := by
  induction ds generalizing s w with
  | nil => rfl
  | cons d ds ih =>
    simp only [birthDevices, bdCheck]
    rw [bdCheck1_skip _ _ _ _ _ (by decide)]
    try rfl
    simpa using ih ((s + 1) % 256) w

theorem deathDevices_bdCheck (nd : EdgeNode) (ds : List Device) (s : Nat)
    (w : Option Nat) :
    bdCheck w (deathDevices nd s ds).1 = some w := by
  induction ds generalizing s w with
  | nil => rfl
  | cons d ds ih =>
    simp only [deathDevices, bdCheck]
    rw [bdCheck1_skip _ _ _ _ _ (by decide)]
    try rfl
    simpa using ih ((s + 1) % 256) w

theorem bdCheck_step (nd : EdgeNode) (c : Cmd) (w : Option Nat)
    (h : bdInv nd w) :
    ∃ w2, bdCheck w (step nd c).events = some w2 ∧ bdInv (step nd c).node w2 := by
  cases c with
  | connect =>
    simp only [step]
    by_cases hc : nd.connected
    · rw [if_pos hc]
      exact ⟨w, rfl, h⟩
    · rw [if_neg hc]
      refine ⟨some nd.bdSeqCounter, ?_, ?_⟩
      · simp only [bdCheck, bdCheck1_willArmed, bdCheck1_mqttConnect, Option.some_bind]
        rw [bdCheck1_birth (nodeTopic nd .nbirth) .nbirth (some 0)
          nd.bdSeqCounter nd.birth_metrics (Or.inl rfl)]
        simpa using birthDevices_bdCheck nd nd.devices 1 (some nd.bdSeqCounter)
      · intro _
        rfl
  | update ms =>
    simp only [step]
    by_cases hc : nd.connected = false
    · rw [if_pos hc]
      exact ⟨w, rfl, h⟩
    · rw [if_neg hc]
      by_cases hbm : inBirth nd.birth_metrics ms = false
      · rw [if_pos hbm]
        exact ⟨w, rfl, h⟩
      · rw [if_neg hbm]
        refine ⟨w, ?_, ?_⟩
        · simp only [bdCheck]
          rw [bdCheck1_skip _ _ _ _ _ (by decide)]
          try rfl
        · intro hcc
          exact h hcc
  | updateDevice id ms =>
    simp only [step]
    by_cases hc : nd.connected = false
    · rw [if_pos hc]
      exact ⟨w, rfl, h⟩
    · rw [if_neg hc]
      cases hf : findDevice nd.devices id with
      | none => exact ⟨w, rfl, h⟩
      | some d =>
        by_cases hbm : inBirth d.birth_metrics ms = false
        · simp only [hbm, if_true]
          exact ⟨w, rfl, h⟩
        · have hbt : inBirth d.birth_metrics ms = true := by
            cases h2 : inBirth d.birth_metrics ms
            · exact absurd h2 hbm
            · rfl
          simp only [hbt, Bool.true_eq_false, if_false]
          refine ⟨w, ?_, ?_⟩
          · simp only [bdCheck]
            rw [bdCheck1_skip _ _ _ _ _ (by decide)]
            try rfl
          · intro hcc
            exact h hcc
  | register d =>
    simp only [step]
    cases hf : findDevice nd.devices d.device_id with
    | some _ => exact ⟨w, rfl, h⟩
    | none =>
      by_cases hc : nd.connected
      · simp only [hc, if_true]
        refine ⟨w, ?_, ?_⟩
        · simp only [bdCheck]
          rw [bdCheck1_skip _ _ _ _ _ (by decide)]
          try rfl
        · intro hcc
          exact h hc
      · have hcf : nd.connected = false := by
          cases h2 : nd.connected
          · rfl
          · exact absurd h2 hc
        simp only [hcf, Bool.false_eq_true, if_false]
        refine ⟨w, rfl, ?_⟩
        intro hcc
        simp at hcc
  | deregister id =>
    simp only [step]
    cases hf : findDevice nd.devices id with
    | none => exact ⟨w, rfl, h⟩
    | some d =>
      by_cases hc : nd.connected
      · simp only [hc, if_true]
        refine ⟨w, ?_, ?_⟩
        · simp only [bdCheck]
          rw [bdCheck1_skip _ _ _ _ _ (by decide)]
          try rfl
        · intro hcc
          exact h hc
      · have hcf : nd.connected = false := by
          cases h2 : nd.connected
          · rfl
          · exact absurd h2 hc
        simp only [hcf, Bool.false_eq_true, if_false]
        refine ⟨w, rfl, ?_⟩
        intro hcc
        simp at hcc
  | disconnect =>
    simp only [step]
    by_cases hc : nd.connected = false
    · rw [if_pos hc]
      exact ⟨w, rfl, h⟩
    · rw [if_neg hc]
      have hcc : nd.connected = true := by
        cases hcon : nd.connected
        · exact absurd hcon hc
        · rfl
      have hw := h hcc
      subst hw
      refine ⟨none, ?_, ?_⟩
      · rw [bdCheck_append, deathDevices_bdCheck]
        simp only [Option.some_bind, bdCheck]
        rw [show [bdSeqMetric nd.sessionBdSeq] =
          bdSeqMetric nd.sessionBdSeq :: [] from rfl]
        rw [bdCheck1_birth (nodeTopic nd .ndeath) .ndeath none
          nd.sessionBdSeq [] (Or.inr rfl)]
        rfl
      · intro hcon
        simp at hcon
  | rebirth =>
    simp only [step]
    by_cases hc : nd.connected = false
    · rw [if_pos hc]
      exact ⟨w, rfl, h⟩
    · rw [if_neg hc]
      have hcc : nd.connected = true := by
        cases hcon : nd.connected
        · exact absurd hcon hc
        · rfl
      have hw := h hcc
      subst hw
      refine ⟨some nd.sessionBdSeq, ?_, ?_⟩
      · simp only [bdCheck]
        rw [bdCheck1_birth (nodeTopic nd .nbirth) .nbirth (some 0)
          nd.sessionBdSeq nd.birth_metrics (Or.inl rfl)]
        simpa using birthDevices_bdCheck nd nd.devices 1 (some nd.sessionBdSeq)
      · intro _
        exact h hcc

theorem bdCheck_run (nd : EdgeNode) (cs : List Cmd) (w : Option Nat)
    (h : bdInv nd w) :
    ∃ w2, bdCheck w (run nd cs).2 = some w2 ∧ bdInv (run nd cs).1 w2 := by
  induction cs generalizing nd w with
  | nil => exact ⟨w, rfl, h⟩
  | cons c cs ih =>
    simp only [run]
    obtain ⟨w2, h1, h2⟩ := bdCheck_step nd c w h
    obtain ⟨w3, h3, h4⟩ := ih (step nd c).node w2 h2
    refine ⟨w3, ?_, h4⟩
    rw [bdCheck_append, h1]
    simpa using h3

theorem deathDevices_mtOf (nd : EdgeNode) (ds : List Device) (s : Nat) :
    (deathDevices nd s ds).1.map Event.mtOf =
      ds.map (fun _ => some MessageType.ddeath) := by
  induction ds generalizing s with
  | nil => rfl
  | cons d ds ih =>
    simp only [deathDevices, List.map_cons, Event.mtOf]
    rw [ih ((s + 1) % 256)]

/-- C3: bdSeq is incremented (mod 2^64) exactly once per connect, whose
session records the armed value; within every session the bdSeq armed in
the will equals the bdSeq metric of the session's NBIRTH and of the NDEATH
published on graceful disconnect; and a graceful disconnect publishes one
DDEATH per registered device, then the NDEATH, then performs the MQTT
disconnect. -/
theorem C3_bdseq_discipline :
    (∀ nd : EdgeNode, nd.connected = false →
      (step nd .connect).node.bdSeqCounter = (nd.bdSeqCounter + 1) % 2 ^ 64 ∧
      (step nd .connect).node.sessionBdSeq = nd.bdSeqCounter) ∧
    (∀ (g n : String) (bm : List Metric) (cs : List Cmd),
      (bdCheck none (run (mkEdgeNode g n bm) cs).2).isSome = true) ∧
    (∀ nd : EdgeNode, nd.connected = true →
      (step nd .disconnect).events =
        (deathDevices nd nd.seq nd.devices).1 ++
          [Event.published (nodeTopic nd .ndeath) .ndeath none
            [bdSeqMetric nd.sessionBdSeq], Event.mqttDisconnect] ∧
      (step nd .disconnect).events.map Event.mtOf =
        nd.devices.map (fun _ => some MessageType.ddeath) ++
          [some MessageType.ndeath, none]) := by
  refine ⟨?_, ?_, ?_⟩
  · intro nd hc
    simp [step, hc]
  · intro g n bm cs
    obtain ⟨w2, h1, _⟩ := bdCheck_run (mkEdgeNode g n bm) cs none (by
      intro hc
      simp [mkEdgeNode] at hc)
    rw [h1]
    rfl
  · intro nd hc
    have hfalse : ¬ (nd.connected = false) := by
      rw [hc]
      simp
    constructor
    · simp only [step]
      rw [if_neg hfalse]
    · simp only [step]
      rw [if_neg hfalse]
      simp only [List.map_append]
      rw [deathDevices_mtOf]
      rfl

/-- Witness for `C3_bdseq_discipline` at a fresh node and at a concrete
connected state. -/
theorem C3_bdseq_discipline_witness :
    ((mkEdgeNode "g" "n" []).connected = false ∧
      (step (mkEdgeNode "g" "n" []) .connect).node.bdSeqCounter = 1 ∧
      (step (mkEdgeNode "g" "n" []) .connect).node.sessionBdSeq = 0) ∧
    ((step (step (mkEdgeNode "g" "n" []) .connect).node .disconnect).events.map
        Event.mtOf = [some MessageType.ndeath, none]) := by
  constructor
  · refine ⟨rfl, ?_⟩
    have h := C3_bdseq_discipline.1 (mkEdgeNode "g" "n" []) rfl
    exact ⟨by rw [h.1]; rfl, by rw [h.2]; rfl⟩
  · have h := C3_bdseq_discipline.2.2 (step (mkEdgeNode "g" "n" []) .connect).node
      (by decide)
    rw [h.2]
    decide

theorem birthCheck_append (nb : Option (List (Option String)))
    (db : List (String × List (Option String))) (l1 l2 : List Event) :
    birthCheck nb db (l1 ++ l2) =
      (birthCheck nb db l1).bind (fun st => birthCheck st.1 st.2 l2) := by
  induction l1 generalizing nb db with
  | nil => rfl
  | cons ev rest ih =>
    simp only [List.cons_append, birthCheck]
    cases hs : birthCheck1 nb db ev with
    | none => rfl
    | some st => simp [ih]

theorem bc1_nbirth (nb : Option (List (Option String)))
    (db : List (String × List (Option String))) (t : Topic) (sq : Option Nat)
    (ms : List Metric) :
    birthCheck1 nb db (Event.published t .nbirth sq ms) =
      some (some (namesOf ms), db) := rfl

theorem bc1_dbirth (nb : Option (List (Option String)))
    (db : List (String × List (Option String))) (g : String) (mtw : MTW)
    (e did : String) (sq : Option Nat) (ms : List Metric) :
    birthCheck1 nb db (Event.published (.device g mtw e did) .dbirth sq ms) =
      some (nb, (did, namesOf ms) :: db) := rfl

theorem bc1_skipMt (nb : Option (List (Option String)))
    (db : List (String × List (Option String))) (t : Topic) (mt : MessageType)
    (sq : Option Nat) (ms : List Metric)
    (h : mt = .ncmd ∨ mt = .ndeath ∨ mt = .dcmd ∨ mt = .ddeath ∨ mt = .hostState) :
    birthCheck1 nb db (Event.published t mt sq ms) = some (nb, db) := by
  rcases h with rfl | rfl | rfl | rfl | rfl <;> rfl

theorem bc1_ndata (names : List (Option String))
    (db : List (String × List (Option String))) (t : Topic) (sq : Option Nat)
    (ms : List Metric)
    (h : ms.all (fun m => names.any (fun x => x == m.name)) = true) :
    birthCheck1 (some names) db (Event.published t .ndata sq ms) =
      some (some names, db) := by
  simp only [birthCheck1, h, if_true]

theorem bc1_ddata (nb : Option (List (Option String)))
    (db : List (String × List (Option String))) (g : String) (mtw : MTW)
    (e did : String) (sq : Option Nat) (ms : List Metric)
    (p : String × List (Option String))
    (h2 : db.find? (fun q => q.1 == did) = some p)
    (h3 : ms.all (fun m => p.2.any (fun x => x == m.name)) = true) :
    birthCheck1 nb db (Event.published (.device g mtw e did) .ddata sq ms) =
      some (nb, db) := by
  simp only [birthCheck1, h2, h3, if_true]

theorem birthDevices_birthCheck (nd : EdgeNode) (ds : List Device) (s : Nat)
    (nb : Option (List (Option String)))
    (db : List (String × List (Option String))) :
    birthCheck nb db (birthDevices nd s ds).1 =
      some (nb, (devEntries ds).reverse ++ db) := by
  induction ds generalizing s db with
  | nil => rfl
  | cons d ds ih =>
    simp only [birthDevices, birthCheck, deviceTopic, bc1_dbirth, Option.some_bind]
    rw [ih ((s + 1) % 256)]
    simp [devEntries, List.append_assoc]

theorem deathDevices_birthCheck (nd : EdgeNode) (ds : List Device) (s : Nat)
    (nb : Option (List (Option String)))
    (db : List (String × List (Option String))) :
    birthCheck nb db (deathDevices nd s ds).1 = some (nb, db) := by
  induction ds generalizing s with
  | nil => rfl
  | cons d ds ih =>
    simp only [deathDevices, birthCheck]
    rw [bc1_skipMt _ _ _ _ _ _ (by simp)]
    simpa using ih ((s + 1) % 256)

theorem find?_append_none {α : Type} (l1 l2 : List α) (p : α → Bool)
    (h : ∀ x ∈ l1, p x = false) :
    (l1 ++ l2).find? p = l2.find? p := by
  induction l1 with
  | nil => rfl
  | cons a t ih =>
    simp only [List.cons_append, List.find?]
    rw [h a (List.mem_cons_self a t)]
    exact ih (fun x hx => h x (List.mem_cons_of_mem a hx))

theorem find_devEntries (ds : List Device) (d : Device) (hd : d ∈ ds)
    (hnodup : (ds.map (fun x => x.device_id)).Nodup)
    (db : List (String × List (Option String))) :
    ((devEntries ds).reverse ++ db).find? (fun q => q.1 == d.device_id) =
      some (d.device_id, namesOf d.birth_metrics) := by
  induction ds generalizing db with
  | nil => exact absurd hd (List.not_mem_nil d)
  | cons d0 ds ih =>
    have hrev : (devEntries (d0 :: ds)).reverse ++ db =
        (devEntries ds).reverse ++ ((d0.device_id, namesOf d0.birth_metrics) :: db) := by
      simp [devEntries, List.append_assoc]
    rw [hrev]
    simp only [List.map_cons, List.nodup_cons] at hnodup
    rcases List.mem_cons.mp hd with rfl | hmem
    · rw [find?_append_none _ _ _ (by
        intro x hx
        simp only [devEntries, List.mem_reverse, List.mem_map] at hx
        obtain ⟨y, hy, rfl⟩ := hx
        have : y.device_id ≠ d.device_id := by
          intro hcontra
          exact hnodup.1 (hcontra ▸ List.mem_map_of_mem (fun x => x.device_id) hy)
        simp [this])]
      simp [List.find?]
    · rw [ih hmem hnodup.2]

theorem inBirth_names (bm ms : List Metric) (h : inBirth bm ms = true)
    (extra : List (Option String)) :
    ms.all (fun m => (extra ++ namesOf bm).any (fun x => x == m.name)) = true := by
  simp only [inBirth, List.all_eq_true] at h ⊢
  intro m hm
  have h2 := h m hm
  simp only [List.any_eq_true] at h2 ⊢
  obtain ⟨b, hb, hbeq⟩ := h2
  exact ⟨b.name, List.mem_append_right extra (by
    simp only [namesOf, List.mem_map]
    exact ⟨b, hb, rfl⟩), hbeq⟩

theorem findDevice_mem (ds : List Device) (id : String) (d : Device)
    (h : findDevice ds id = some d) : d ∈ ds ∧ d.device_id = id := by
  unfold findDevice at h
  refine ⟨List.mem_of_find?_eq_some h, ?_⟩
  have := List.find?_some h
  exact eq_of_beq this

theorem findDevice_none (ds : List Device) (id : String)
    (h : findDevice ds id = none) : ∀ x ∈ ds, x.device_id ≠ id := by
  unfold findDevice at h
  intro x hx heq
  have := List.find?_eq_none.mp h x hx
  simp [heq] at this

theorem birthCheck_step (nd : EdgeNode) (c : Cmd)
    (nb : Option (List (Option String))) (db : List (String × List (Option String)))
    (h : birthInv nd (nb, db)) :
    ∃ nb2 db2, birthCheck nb db (step nd c).events = some (nb2, db2) ∧
      birthInv (step nd c).node (nb2, db2) := by
  cases c with
  | connect =>
    simp only [step]
    by_cases hc : nd.connected
    · rw [if_pos hc]
      exact ⟨nb, db, rfl, h⟩
    · rw [if_neg hc]
      refine ⟨some (some "bdSeq" :: namesOf nd.birth_metrics),
        (devEntries nd.devices).reverse ++ db, ?_, h.1, ?_⟩
      · show birthCheck (some (some "bdSeq" :: namesOf nd.birth_metrics)) db
            (birthDevices nd 1 nd.devices).1 =
          some (some (some "bdSeq" :: namesOf nd.birth_metrics),
            (devEntries nd.devices).reverse ++ db)
        exact birthDevices_birthCheck nd nd.devices 1 _ db
      · intro _
        exact ⟨rfl, fun x hx => find_devEntries nd.devices x hx h.1 db⟩
  | update ms =>
    simp only [step]
    by_cases hc : nd.connected = false
    · rw [if_pos hc]
      exact ⟨nb, db, rfl, h⟩
    · rw [if_neg hc]
      have hcc : nd.connected = true := by
        cases hcon : nd.connected
        · exact absurd hcon hc
        · rfl
      by_cases hbm : inBirth nd.birth_metrics ms = false
      · rw [if_pos hbm]
        exact ⟨nb, db, rfl, h⟩
      · rw [if_neg hbm]
        have hbt : inBirth nd.birth_metrics ms = true := by
          cases h2 : inBirth nd.birth_metrics ms
          · exact absurd h2 hbm
          · rfl
        have hnb2 : nb = some (some "bdSeq" :: namesOf nd.birth_metrics) := (h.2 hcc).1
        have hdev := (h.2 hcc).2
        have hall : ms.all
            (fun m => (some "bdSeq" :: namesOf nd.birth_metrics).any
              (fun x => x == m.name)) = true :=
          inBirth_names nd.birth_metrics ms hbt [some "bdSeq"]
        refine ⟨some (some "bdSeq" :: namesOf nd.birth_metrics), db, ?_, h.1, ?_⟩
        · simp only [birthCheck]
          rw [hnb2, bc1_ndata _ _ _ _ _ hall]
          rfl
        · intro _
          exact ⟨rfl, hdev⟩
  | updateDevice id ms =>
    simp only [step]
    by_cases hc : nd.connected = false
    · rw [if_pos hc]
      exact ⟨nb, db, rfl, h⟩
    · rw [if_neg hc]
      have hcc : nd.connected = true := by
        cases hcon : nd.connected
        · exact absurd hcon hc
        · rfl
      cases hf : findDevice nd.devices id with
      | none => exact ⟨nb, db, rfl, h⟩
      | some d =>
        by_cases hbm : inBirth d.birth_metrics ms = false
        · simp only [hbm, if_true]
          exact ⟨nb, db, rfl, h⟩
        · have hbt : inBirth d.birth_metrics ms = true := by
            cases h2 : inBirth d.birth_metrics ms
            · exact absurd h2 hbm
            · rfl
          simp only [hbt, Bool.true_eq_false, if_false]
          obtain ⟨hmem, hid⟩ := findDevice_mem nd.devices id d hf
          have hnb2 : nb = some (some "bdSeq" :: namesOf nd.birth_metrics) := (h.2 hcc).1
          have hdev := (h.2 hcc).2
          have hfind := hdev d hmem
          rw [hid] at hfind
          have hall : ms.all
              (fun m => (namesOf d.birth_metrics).any (fun x => x == m.name)) = true :=
            inBirth_names d.birth_metrics ms hbt []
          refine ⟨nb, db, ?_, h.1, ?_⟩
          · simp only [birthCheck, deviceTopic]
            rw [bc1_ddata nb db nd.group_id (.mt .ddata) nd.edge_node_id id
              (some nd.seq) ms (id, namesOf d.birth_metrics) hfind hall]
            rfl
          · intro _
            exact ⟨hnb2, hdev⟩
  | register d =>
    simp only [step]
    cases hf : findDevice nd.devices d.device_id with
    | some d0 => exact ⟨nb, db, rfl, h⟩
    | none =>
      have hnotin : ∀ x ∈ nd.devices, x.device_id ≠ d.device_id :=
        findDevice_none nd.devices d.device_id hf
      have hnodup2 : ((nd.devices ++ [d]).map (fun x => x.device_id)).Nodup := by
        rw [List.map_append, List.nodup_append]
        refine ⟨h.1, by simp, ?_⟩
        intro a ha hb
        simp only [List.map_cons, List.map_nil, List.mem_singleton] at hb
        subst hb
        obtain ⟨x, hx, hxe⟩ := List.mem_map.mp ha
        exact hnotin x hx hxe
      by_cases hc : nd.connected
      · simp only [hc, if_true]
        refine ⟨nb, (d.device_id, namesOf d.birth_metrics) :: db, ?_, hnodup2, ?_⟩
        · rfl
        · intro _
          obtain ⟨hnb2, hdev⟩ := h.2 hc
          refine ⟨hnb2, ?_⟩
          intro x hx
          rcases List.mem_append.mp hx with hx1 | hx2
          · have hne : (d.device_id == x.device_id) = false :=
              beq_eq_false_iff_ne.mpr (fun he => hnotin x hx1 he.symm)
            simp only [List.find?, hne]
            exact hdev x hx1
          · have hx3 : x = d := by simpa using hx2
            subst hx3
            simp only [List.find?, beq_self_eq_true]
      · have hcf : nd.connected = false := by
          cases h2 : nd.connected
          · rfl
          · exact absurd h2 hc
        simp only [hcf, Bool.false_eq_true, if_false]
        refine ⟨nb, db, rfl, hnodup2, ?_⟩
        intro hcc
        simp at hcc
  | deregister id =>
    simp only [step]
    cases hf : findDevice nd.devices id with
    | none => exact ⟨nb, db, rfl, h⟩
    | some d =>
      have hnodup2 :
          ((nd.devices.filter (fun x => !(x.device_id == id))).map
            (fun x => x.device_id)).Nodup :=
        h.1.sublist ((List.filter_sublist nd.devices).map (fun x => x.device_id))
      by_cases hc : nd.connected
      · simp only [hc, if_true]
        refine ⟨nb, db, ?_, hnodup2, ?_⟩
        · rfl
        · intro _
          obtain ⟨hnb2, hdev⟩ := h.2 hc
          exact ⟨hnb2, fun x hx => hdev x (List.mem_of_mem_filter hx)⟩
      · have hcf : nd.connected = false := by
          cases h2 : nd.connected
          · rfl
          · exact absurd h2 hc
        simp only [hcf, Bool.false_eq_true, if_false]
        refine ⟨nb, db, rfl, hnodup2, ?_⟩
        intro hcc
        simp at hcc
  | disconnect =>
    simp only [step]
    by_cases hc : nd.connected = false
    · rw [if_pos hc]
      exact ⟨nb, db, rfl, h⟩
    · rw [if_neg hc]
      refine ⟨nb, db, ?_, h.1, ?_⟩
      · rw [birthCheck_append, deathDevices_birthCheck]
        rfl
      · intro hcc
        simp at hcc
  | rebirth =>
    simp only [step]
    by_cases hc : nd.connected = false
    · rw [if_pos hc]
      exact ⟨nb, db, rfl, h⟩
    · rw [if_neg hc]
      have hcc : nd.connected = true := by
        cases hcon : nd.connected
        · exact absurd hcon hc
        · rfl
      refine ⟨some (some "bdSeq" :: namesOf nd.birth_metrics),
        (devEntries nd.devices).reverse ++ db, ?_, h.1, ?_⟩
      · show birthCheck (some (some "bdSeq" :: namesOf nd.birth_metrics)) db
            (birthDevices nd 1 nd.devices).1 =
          some (some (some "bdSeq" :: namesOf nd.birth_metrics),
            (devEntries nd.devices).reverse ++ db)
        exact birthDevices_birthCheck nd nd.devices 1 _ db
      · intro _
        exact ⟨rfl, fun x hx => find_devEntries nd.devices x hx h.1 db⟩

theorem birthCheck_run (nd : EdgeNode) (cs : List Cmd)
    (nb : Option (List (Option String))) (db : List (String × List (Option String)))
    (h : birthInv nd (nb, db)) :
    ∃ nb2 db2, birthCheck nb db (run nd cs).2 = some (nb2, db2) ∧
      birthInv (run nd cs).1 (nb2, db2) := by
  induction cs generalizing nd nb db with
  | nil => exact ⟨nb, db, rfl, h⟩
  | cons c cs ih =>
    simp only [run]
    obtain ⟨nb1, db1, h1, h2⟩ := birthCheck_step nd c nb db h
    obtain ⟨nb2, db2, h3, h4⟩ := ih (step nd c).node nb1 db1 h2
    refine ⟨nb2, db2, ?_, h4⟩
    rw [birthCheck_append, h1]
    simpa using h3

/-- C7: the birth-set closure holds.  `update` and `update_device` reject a
metric list containing a name absent from the session's birth set with
`NotInBirthSet`, publishing nothing and leaving the node unchanged; and
every trace of public operations from a fresh node passes the birth-closure
checker: each NDATA metric name appears in the session's NBIRTH body and
each DDATA metric name in the device's DBIRTH body. -/
theorem C7_birth_closure :
    (∀ (nd : EdgeNode) (ms : List Metric), nd.connected = true →
      inBirth nd.birth_metrics ms = false →
      step nd (.update ms) = ⟨nd, [], some .notInBirthSet⟩) ∧
    (∀ (nd : EdgeNode) (id : String) (d : Device) (ms : List Metric),
      nd.connected = true → findDevice nd.devices id = some d →
      inBirth d.birth_metrics ms = false →
      step nd (.updateDevice id ms) = ⟨nd, [], some .notInBirthSet⟩) ∧
    (∀ (g n : String) (bm : List Metric) (cs : List Cmd),
      (birthCheck none [] (run (mkEdgeNode g n bm) cs).2).isSome = true) := by
  refine ⟨?_, ?_, ?_⟩
  · intro nd ms hc hb
    simp only [step, hc, Bool.true_eq_false, if_false, hb, if_true]
  · intro nd id d ms hc hf hb
    simp only [step, hc, Bool.true_eq_false, if_false, hf, hb, if_true]
  · intro g n bm cs
    obtain ⟨nb2, db2, h1, h2⟩ := birthCheck_run (mkEdgeNode g n bm) cs none []
      (by
        refine ⟨List.nodup_nil, ?_⟩
        intro hcc
        simp [mkEdgeNode] at hcc)
    rw [h1]
    rfl

/-- C7 witness: concrete rejections and a concrete accepted trace. -/
theorem C7_birth_closure_witness :
    step node7 (.update [metric7b]) = ⟨node7, [], some .notInBirthSet⟩ ∧
    step node7 (.updateDevice "dev1" [metric7b]) = ⟨node7, [], some .notInBirthSet⟩ ∧
    (birthCheck none []
      (run (mkEdgeNode "g" "n" [metric7a]) [.connect, .update [metric7a]]).2).isSome
      = true :=
  ⟨C7_birth_closure.1 node7 [metric7b] rfl (by decide),
   C7_birth_closure.2.1 node7 "dev1" dev7 [metric7b] rfl (by decide) (by decide),
   C7_birth_closure.2.2 "g" "n" [metric7a] [.connect, .update [metric7a]]⟩

/-- C8: for every registered device, `update_device` publishes DDATA on the
device topic whose fourth component is the edge node id and whose fifth
component is the device's id — never the edge node id in the device-id
position — and that topic stringifies to
spBv1.0/group/DDATA/edge-node-id/device-id. -/
theorem C8_device_topic (nd : EdgeNode) (id : String) (d : Device) (ms : List Metric)
    (hc : nd.connected = true) (hf : findDevice nd.devices id = some d)
    (hb : inBirth d.birth_metrics ms = true) :
    (step nd (.updateDevice id ms)).events =
      [Event.published (Topic.device nd.group_id (.mt .ddata) nd.edge_node_id id)
        .ddata (some nd.seq) ms] ∧
    (Topic.device nd.group_id (.mt .ddata) nd.edge_node_id id).str =
      String.mk (joinSlash ["spBv1.0".data, nd.group_id.data, "DDATA".data,
        nd.edge_node_id.data, id.data]) := by
  constructor
  · simp only [step, hc, Bool.true_eq_false, if_false, hf, hb]
    rfl
  · rfl

/-- C8 witness: update_device("dev1", [Metric("x", INT16, -4)]) publishes
DDATA on spBv1.0/g/DDATA/n/dev1, not on spBv1.0/g/DDATA/n/n. -/
theorem C8_device_topic_witness :
    (step node8 (.updateDevice "dev1" [metric8])).events =
      [Event.published (Topic.device "g" (.mt .ddata) "n" "dev1") .ddata (some 1)
        [metric8]] ∧
    (Topic.device "g" (.mt .ddata) "n" "dev1").str = "spBv1.0/g/DDATA/n/dev1" ∧
    "spBv1.0/g/DDATA/n/dev1" ≠ "spBv1.0/g/DDATA/n/n" :=
  ⟨(C8_device_topic node8 "dev1" dev8 [metric8] rfl (by decide) (by decide)).1,
   by decide, by decide⟩

end Pysparkplug
